import Mathlib

/-!
Verification of the evalml pipeline-utility core (`evalml/pipelines/utils.py`)
and model-understanding metrics (`evalml/model_understanding/metrics.py`)
against their natural-language specification.

The Python code is shallowly embedded: DataFrames and schemas become lists and
records, pandas/woodwork/scipy collaborators become explicit parameters or
record fields, Python dictionaries become insertion-ordered association lists,
and fallible code returns `Except`.
-/

namespace EvalML

/-- Modelled from the spec: the closed problem-type enumeration
{binary, multiclass, regression, time-series-binary, time-series-multiclass,
time-series-regression, multiseries-time-series-regression}.  The source file
only imports `ProblemTypes` from `evalml.problem_types`, whose definition is
not under `src/`. -/
inductive ProblemTypes where
  | BINARY
  | MULTICLASS
  | REGRESSION
  | TIME_SERIES_BINARY
  | TIME_SERIES_MULTICLASS
  | TIME_SERIES_REGRESSION
  | MULTISERIES_TIME_SERIES_REGRESSION
deriving DecidableEq, Repr

open ProblemTypes

/-- Modelled from the spec: `is_classification` holds for the binary and
multiclass problem types (plain or time-series); the label-encoding rule and
the sampler rule are keyed on it.  Imported by the source from
`evalml.problem_types`, not under `src/`. -/
def is_classification : ProblemTypes → Bool
  | BINARY | MULTICLASS | TIME_SERIES_BINARY | TIME_SERIES_MULTICLASS => true
  | _ => false

/-- Modelled from the spec: `is_regression` holds for the regression problem
types, including the time-series and multiseries variants.  Imported by the
source from `evalml.problem_types`, not under `src/`. -/
def is_regression : ProblemTypes → Bool
  | REGRESSION | TIME_SERIES_REGRESSION | MULTISERIES_TIME_SERIES_REGRESSION => true
  | _ => false

/-- Modelled from the spec: `is_time_series` holds for the four time-series
problem types.  Imported by the source from `evalml.problem_types`, not under
`src/`. -/
def is_time_series : ProblemTypes → Bool
  | TIME_SERIES_BINARY | TIME_SERIES_MULTICLASS | TIME_SERIES_REGRESSION
  | MULTISERIES_TIME_SERIES_REGRESSION => true
  | _ => false

/-- Modelled from the spec: `is_multiseries` holds exactly for
multiseries-time-series-regression.  Imported by the source from
`evalml.problem_types`, not under `src/`. -/
def is_multiseries : ProblemTypes → Bool
  | MULTISERIES_TIME_SERIES_REGRESSION => true
  | _ => false

/-- Model families referenced by the selector rules (`evalml.model_family`).
Only the families the source file tests for are distinguished; `OTHER` stands
for every remaining family. -/
inductive ModelFamily where
  | ARIMA
  | PROPHET
  | LINEAR_MODEL
  | RANDOM_FOREST
  | CATBOOST
  | OTHER
deriving DecidableEq, Repr

/-- Component identifiers that the Preprocessing Selector can emit
(the classes imported at the top of `evalml/pipelines/utils.py`). -/
inductive ComponentType where
  | LabelEncoder
  | DropNullColumns
  | DropColumns
  | EmailFeaturizer
  | URLFeaturizer
  | DateTimeFeaturizer
  | NaturalLanguageFeaturizer
  | Imputer
  | OneHotEncoder
  | OrdinalEncoder
  | Undersampler
  | Oversampler
  | StandardScaler
  | TimeSeriesFeaturizer
  | STLDecomposer
  | DropNaNRowsTransformer
deriving DecidableEq, Repr

/-- Woodwork logical types tested by `_get_imputer`
(`types_imputer_handles` in the source), plus the remaining tags that can
occur in a schema. -/
inductive LogicalType where
  | AgeNullable
  | Boolean
  | BooleanNullable
  | Categorical
  | Double
  | Integer
  | IntegerNullable
  | URL
  | EmailAddress
  | Datetime
  | NaturalLanguage
  | Ordinal
  | Age
  | Unknown
deriving DecidableEq, Repr

/-- The answers the woodwork schema service gives to the `X.ww.select(...)`
queries issued by the selector rules.  Each field holds the column names the
corresponding query returns; `logical_types` models
`X.ww.logical_types.values()`.  The feature-type inference system itself is an
external collaborator per the spec. -/
structure FeatureSchema where
  all_null_non_index_cols : List String
  index_unknown_cols : List String
  email_cols : List String
  url_cols : List String
  datetime_cols : List String
  natural_language_cols : List String
  categorical_like_cols : List String
  ordinal_cols : List String
  logical_types : List LogicalType
deriving DecidableEq, Repr

/-- The observable facts about an estimator class that the selector rules use:
its `model_family` attribute, whether it is one of
{CatBoostClassifier, CatBoostRegressor} (the `_get_ohe` identity test), and
`estimator_unable_to_handle_nans` (an external helper). -/
structure EstimatorClass where
  name : String
  model_family : ModelFamily
  is_catboost : Bool
  unable_to_handle_nans : Bool
deriving DecidableEq, Repr

/-- The two keys of the `sampler_components` dictionary in `_get_sampler`;
any other sampler name raises a `KeyError` in the source, so the embedding
restricts the name at the type level. -/
inductive SamplerName where
  | Undersampler
  | Oversampler
deriving DecidableEq, Repr

/-- The external collaborators consulted by `_get_decomposer`:
`get_time_index(X, y, None).freq` (none when the frequency is uninferrable),
`STLDecomposer.is_freq_valid`, and `STLDecomposer.determine_periodicity`
applied to the chosen `rel_max_order`.  None of these live under `src/`. -/
structure STLEnv where
  inferred_freq : Option String
  is_freq_valid : String → Bool
  determine_periodicity : Nat → Option Nat

def DECOMPOSER_PERIOD_CAP : Nat := 1000

def _get_label_encoder (_X : FeatureSchema) (problem_type : ProblemTypes)
    (_estimator_class : EstimatorClass) (_sampler_name : Option SamplerName) :
    List ComponentType :=
  if is_classification problem_type then [ComponentType.LabelEncoder] else []

def _get_drop_all_null (X : FeatureSchema) (_problem_type : ProblemTypes)
    (_estimator_class : EstimatorClass) (_sampler_name : Option SamplerName) :
    List ComponentType :=
  if X.all_null_non_index_cols.length > 0 then [ComponentType.DropNullColumns] else []

def _get_drop_index_unknown (X : FeatureSchema) (_problem_type : ProblemTypes)
    (_estimator_class : EstimatorClass) (_sampler_name : Option SamplerName) :
    List ComponentType :=
  if X.index_unknown_cols.length > 0 then [ComponentType.DropColumns] else []

def _get_email (X : FeatureSchema) (_problem_type : ProblemTypes)
    (_estimator_class : EstimatorClass) (_sampler_name : Option SamplerName) :
    List ComponentType :=
  if X.email_cols.length > 0 then [ComponentType.EmailFeaturizer] else []

def _get_url (X : FeatureSchema) (_problem_type : ProblemTypes)
    (_estimator_class : EstimatorClass) (_sampler_name : Option SamplerName) :
    List ComponentType :=
  if X.url_cols.length > 0 then [ComponentType.URLFeaturizer] else []

def _get_datetime (X : FeatureSchema) (_problem_type : ProblemTypes)
    (estimator_class : EstimatorClass) (_sampler_name : Option SamplerName) :
    List ComponentType :=
  if X.datetime_cols.length > 0 &&
      !(estimator_class.model_family = ModelFamily.ARIMA ∨
        estimator_class.model_family = ModelFamily.PROPHET : Bool) then
    [ComponentType.DateTimeFeaturizer]
  else []

def _get_natural_language (X : FeatureSchema) (_problem_type : ProblemTypes)
    (_estimator_class : EstimatorClass) (_sampler_name : Option SamplerName) :
    List ComponentType :=
  if X.natural_language_cols.length > 0 then [ComponentType.NaturalLanguageFeaturizer] else []

/-- The fixed set `types_imputer_handles` from `_get_imputer`. -/
def types_imputer_handles : List LogicalType :=
  [LogicalType.AgeNullable, LogicalType.Boolean, LogicalType.BooleanNullable,
   LogicalType.Categorical, LogicalType.Double, LogicalType.Integer,
   LogicalType.IntegerNullable, LogicalType.URL, LogicalType.EmailAddress,
   LogicalType.Datetime]

def _get_imputer (X : FeatureSchema) (_problem_type : ProblemTypes)
    (_estimator_class : EstimatorClass) (_sampler_name : Option SamplerName) :
    List ComponentType :=
  if X.logical_types.any (fun lt => lt ∈ types_imputer_handles) ||
      X.natural_language_cols.length > 0 then
    [ComponentType.Imputer]
  else []

def _get_ohe (X : FeatureSchema) (_problem_type : ProblemTypes)
    (estimator_class : EstimatorClass) (_sampler_name : Option SamplerName) :
    List ComponentType :=
  if X.categorical_like_cols.length > 0 && !estimator_class.is_catboost then
    [ComponentType.OneHotEncoder]
  else []

def _get_ordinal_encoder (X : FeatureSchema) (_problem_type : ProblemTypes)
    (_estimator_class : EstimatorClass) (_sampler_name : Option SamplerName) :
    List ComponentType :=
  if X.ordinal_cols.length > 0 then [ComponentType.OrdinalEncoder] else []

def _get_sampler (_X : FeatureSchema) (_problem_type : ProblemTypes)
    (_estimator_class : EstimatorClass) (sampler_name : Option SamplerName) :
    List ComponentType :=
  match sampler_name with
  | some SamplerName.Undersampler => [ComponentType.Undersampler]
  | some SamplerName.Oversampler => [ComponentType.Oversampler]
  | none => []

def _get_standard_scaler (_X : FeatureSchema) (_problem_type : ProblemTypes)
    (estimator_class : EstimatorClass) (_sampler_name : Option SamplerName) :
    List ComponentType :=
  if estimator_class.model_family = ModelFamily.LINEAR_MODEL then
    [ComponentType.StandardScaler]
  else []

def _get_time_series_featurizer (_X : FeatureSchema) (problem_type : ProblemTypes)
    (_estimator_class : EstimatorClass) (_sampler_name : Option SamplerName) :
    List ComponentType :=
  if is_time_series problem_type then [ComponentType.TimeSeriesFeaturizer] else []

def _get_decomposer (env : STLEnv) (_X : FeatureSchema) (problem_type : ProblemTypes)
    (_estimator_class : EstimatorClass) (_sampler_name : Option SamplerName) :
    List ComponentType :=
  if is_time_series problem_type && is_regression problem_type then
    if is_multiseries problem_type then [ComponentType.STLDecomposer]
    else
      match env.inferred_freq with
      | none => []
      | some freq =>
        if env.is_freq_valid freq then
          -- rel_max_order is 3 if the frequency name contains "Q", else 5
          match env.determine_periodicity (if freq.contains 'Q' then 3 else 5) with
          | some seasonal_period =>
            if seasonal_period ≤ DECOMPOSER_PERIOD_CAP then [ComponentType.STLDecomposer]
            else []
          | none => []
        else []
  else []

def _get_drop_nan_rows_transformer (_X : FeatureSchema) (problem_type : ProblemTypes)
    (estimator_class : EstimatorClass) (sampler_name : Option SamplerName) :
    List ComponentType :=
  if is_time_series problem_type &&
      (estimator_class.unable_to_handle_nans || sampler_name.isSome) then
    [ComponentType.DropNaNRowsTransformer]
  else []

/-- The names of the rule functions, used because the source holds the rules
in Python lists and filters them by function identity
(`if function not in functions_to_exclude`). -/
inductive RuleFn where
  | label_encoder
  | drop_all_null
  | drop_index_unknown
  | url
  | email
  | datetime
  | natural_language
  | imputer
  | time_series_featurizer
  | decomposer
  | ordinal_encoder
  | ohe
  | drop_nan_rows_transformer
  | sampler
  | standard_scaler
deriving DecidableEq, Repr

/-- Dispatch from a rule name to the rule function it denotes. -/
def runRule (env : STLEnv) (r : RuleFn) (X : FeatureSchema) (problem_type : ProblemTypes)
    (estimator_class : EstimatorClass) (sampler_name : Option SamplerName) :
    List ComponentType :=
  match r with
  | RuleFn.label_encoder => _get_label_encoder X problem_type estimator_class sampler_name
  | RuleFn.drop_all_null => _get_drop_all_null X problem_type estimator_class sampler_name
  | RuleFn.drop_index_unknown => _get_drop_index_unknown X problem_type estimator_class sampler_name
  | RuleFn.url => _get_url X problem_type estimator_class sampler_name
  | RuleFn.email => _get_email X problem_type estimator_class sampler_name
  | RuleFn.datetime => _get_datetime X problem_type estimator_class sampler_name
  | RuleFn.natural_language => _get_natural_language X problem_type estimator_class sampler_name
  | RuleFn.imputer => _get_imputer X problem_type estimator_class sampler_name
  | RuleFn.time_series_featurizer => _get_time_series_featurizer X problem_type estimator_class sampler_name
  | RuleFn.decomposer => _get_decomposer env X problem_type estimator_class sampler_name
  | RuleFn.ordinal_encoder => _get_ordinal_encoder X problem_type estimator_class sampler_name
  | RuleFn.ohe => _get_ohe X problem_type estimator_class sampler_name
  | RuleFn.drop_nan_rows_transformer => _get_drop_nan_rows_transformer X problem_type estimator_class sampler_name
  | RuleFn.sampler => _get_sampler X problem_type estimator_class sampler_name
  | RuleFn.standard_scaler => _get_standard_scaler X problem_type estimator_class sampler_name

/-- The rule list chosen by `_get_preprocessing_components` for the given
problem type (`components_functions` in the source); `none` models the early
`return []` in the multiseries branch without a decomposer. -/
def components_functions (problem_type : ProblemTypes) (include_decomposer : Bool) :
    Option (List RuleFn) :=
  if is_multiseries problem_type then
    if include_decomposer then some [RuleFn.decomposer] else none
  else if is_time_series problem_type then
    some ([RuleFn.label_encoder, RuleFn.drop_all_null, RuleFn.drop_index_unknown,
      RuleFn.url, RuleFn.email, RuleFn.natural_language, RuleFn.imputer,
      RuleFn.time_series_featurizer]
      ++ (if include_decomposer then [RuleFn.decomposer] else [])
      ++ [RuleFn.datetime, RuleFn.ordinal_encoder, RuleFn.ohe,
        RuleFn.drop_nan_rows_transformer, RuleFn.sampler, RuleFn.standard_scaler])
  else
    some [RuleFn.label_encoder, RuleFn.drop_all_null, RuleFn.drop_index_unknown,
      RuleFn.url, RuleFn.email, RuleFn.datetime, RuleFn.natural_language,
      RuleFn.imputer, RuleFn.ordinal_encoder, RuleFn.ohe, RuleFn.sampler,
      RuleFn.standard_scaler]

/-- `functions_to_exclude` as built from the `exclude_featurizers` argument. -/
def functions_to_exclude (exclude_featurizers : List String) : List RuleFn :=
  (if "DatetimeFeaturizer" ∈ exclude_featurizers then [RuleFn.datetime] else [])
    ++ (if "EmailFeaturizer" ∈ exclude_featurizers then [RuleFn.email] else [])
    ++ (if "URLFeaturizer" ∈ exclude_featurizers then [RuleFn.url] else [])
    ++ (if "NaturalLanguageFeaturizer" ∈ exclude_featurizers then [RuleFn.natural_language] else [])
    ++ (if "TimeSeriesFeaturizer" ∈ exclude_featurizers then [RuleFn.time_series_featurizer] else [])

/-- `_get_preprocessing_components` from `evalml/pipelines/utils.py`
(lines 275-362): choose the rule list for the problem type, drop the excluded
featurizer rules, and concatenate the rule outputs in order. -/
def _get_preprocessing_components (env : STLEnv) (X : FeatureSchema)
    (problem_type : ProblemTypes) (estimator_class : EstimatorClass)
    (sampler_name : Option SamplerName) (exclude_featurizers : List String)
    (include_decomposer : Bool) : List ComponentType :=
  match components_functions problem_type include_decomposer with
  | none => []
  | some fns =>
    (fns.filter (fun f => f ∉ functions_to_exclude exclude_featurizers)).flatMap
      (fun f => runRule env f X problem_type estimator_class sampler_name)

/-- The validation prologue of `make_pipeline` (lines 557-566): with an
estimator supplied, an estimator invalid for the problem type or a sampler
request for a non-classification problem raises a `ValueError` before any
component selection happens.  `get_estimators` is an external helper and is
passed in as a parameter. -/
def make_pipeline_validate (get_estimators : ProblemTypes → List EstimatorClass)
    (estimator : Option EstimatorClass) (problem_type : ProblemTypes)
    (sampler_name : Option SamplerName) : Except String Unit :=
  match estimator with
  | none => Except.ok ()
  | some est =>
    if est ∉ get_estimators problem_type then
      Except.error (est.name ++ " is not a valid estimator for problem type")
    else if !is_classification problem_type && sampler_name.isSome then
      Except.error "Sampling is unsupported for problem_type"
    else Except.ok ()

/-- A degenerate external environment for concrete instantiations:
no inferrable frequency, no valid frequency, no periodicity. -/
def trivSTLEnv : STLEnv :=
  { inferred_freq := none, is_freq_valid := fun _ => false,
    determine_periodicity := fun _ => none }

/-- A schema with no tagged columns at all. -/
def emptySchema : FeatureSchema :=
  { all_null_non_index_cols := [], index_unknown_cols := [], email_cols := [],
    url_cols := [], datetime_cols := [], natural_language_cols := [],
    categorical_like_cols := [], ordinal_cols := [], logical_types := [] }

/-- A plain random-forest regressor estimator class for concrete instantiations. -/
def rfRegressor : EstimatorClass :=
  { name := "Random Forest Regressor", model_family := ModelFamily.RANDOM_FOREST,
    is_catboost := false, unable_to_handle_nans := false }

/-- A plain random-forest classifier estimator class for concrete instantiations. -/
def rfClassifier : EstimatorClass :=
  { name := "Random Forest Classifier", model_family := ModelFamily.RANDOM_FOREST,
    is_catboost := false, unable_to_handle_nans := false }

/-- For claim C9: one component per rule, in the fixed rule-list order of the
relevant `_get_preprocessing_components` branch.  Both sampler components are
listed at the sampler rule position since `_get_sampler` may emit either. -/
def selectorMasterOrder (pt : ProblemTypes) : List ComponentType :=
  if is_multiseries pt then [ComponentType.STLDecomposer]
  else if is_time_series pt then
    [ComponentType.LabelEncoder, ComponentType.DropNullColumns, ComponentType.DropColumns,
     ComponentType.URLFeaturizer, ComponentType.EmailFeaturizer,
     ComponentType.NaturalLanguageFeaturizer, ComponentType.Imputer,
     ComponentType.TimeSeriesFeaturizer, ComponentType.STLDecomposer,
     ComponentType.DateTimeFeaturizer, ComponentType.OrdinalEncoder,
     ComponentType.OneHotEncoder, ComponentType.DropNaNRowsTransformer,
     ComponentType.Undersampler, ComponentType.Oversampler, ComponentType.StandardScaler]
  else
    [ComponentType.LabelEncoder, ComponentType.DropNullColumns, ComponentType.DropColumns,
     ComponentType.URLFeaturizer, ComponentType.EmailFeaturizer,
     ComponentType.DateTimeFeaturizer, ComponentType.NaturalLanguageFeaturizer,
     ComponentType.Imputer, ComponentType.OrdinalEncoder, ComponentType.OneHotEncoder,
     ComponentType.Undersampler, ComponentType.Oversampler, ComponentType.StandardScaler]

/-- The at-most-one component each rule can contribute (the sampler rule can
contribute either sampler, so its block lists both). -/
def ruleBlock : RuleFn → List ComponentType
  | RuleFn.label_encoder => [ComponentType.LabelEncoder]
  | RuleFn.drop_all_null => [ComponentType.DropNullColumns]
  | RuleFn.drop_index_unknown => [ComponentType.DropColumns]
  | RuleFn.url => [ComponentType.URLFeaturizer]
  | RuleFn.email => [ComponentType.EmailFeaturizer]
  | RuleFn.datetime => [ComponentType.DateTimeFeaturizer]
  | RuleFn.natural_language => [ComponentType.NaturalLanguageFeaturizer]
  | RuleFn.imputer => [ComponentType.Imputer]
  | RuleFn.time_series_featurizer => [ComponentType.TimeSeriesFeaturizer]
  | RuleFn.decomposer => [ComponentType.STLDecomposer]
  | RuleFn.ordinal_encoder => [ComponentType.OrdinalEncoder]
  | RuleFn.ohe => [ComponentType.OneHotEncoder]
  | RuleFn.drop_nan_rows_transformer => [ComponentType.DropNaNRowsTransformer]
  | RuleFn.sampler => [ComponentType.Undersampler, ComponentType.Oversampler]
  | RuleFn.standard_scaler => [ComponentType.StandardScaler]

/-! ### Data-Check Action Translator (`_make_component_list_from_actions`) -/

/-- The tagged remediation actions consumed by the Action Translator.  Each
constructor carries the metadata fields the translator reads for that action
code; `imputeCol` reads either `impute_strategy` (target) or
`impute_strategies` (per-column) depending on `is_target`. -/
inductive DataCheckAction where
  | regularizeAndImpute (time_index : Option String) (frequency_payload : String)
  | dropCol (columns : List String)
  | imputeCol (is_target : Bool) (impute_strategy : String)
      (impute_strategies : List (String × String))
  | dropRows (rows : List Int)
deriving DecidableEq, Repr

/-- The components (with the parameters the translator sets) that
`_make_component_list_from_actions` can instantiate. -/
inductive ActionComponent where
  | TimeSeriesRegularizer (time_index : Option String) (frequency_payload : String)
  | TimeSeriesImputer
  | TargetImputer (impute_strategy : String)
  | PerColumnImputer (impute_strategies : List (String × String))
  | DropColumns (columns : List String)
  | DropRowsTransformer (indices_to_drop : List Int)
deriving DecidableEq, Repr

/-- Code-point lexicographic comparison of character lists: the order Python
`sorted` uses on strings. -/
def lexLeData : List Char → List Char → Bool
  | [], _ => true
  | _ :: _, [] => false
  | a :: as, b :: bs =>
    if a.toNat < b.toNat then true
    else if b.toNat < a.toNat then false
    else lexLeData as bs

/-- Python string comparison (code-point lexicographic). -/
def strLe (a b : String) : Bool := lexLeData a.data b.data

/-- Python integer comparison. -/
def intLe (a b : Int) : Bool := decide (a ≤ b)

/-- Python `sorted(set(l))` under the comparison `le`: the distinct elements
of `l` in ascending order. -/
def sortedDedup {α : Type} [DecidableEq α] (le : α → α → Bool) (l : List α) :
    List α :=
  List.insertionSort (fun a b => le a b = true) l.dedup

/-- One iteration of the action loop: impute/regularize actions emit
components immediately, drop actions only extend the running column/row
accumulators. -/
def _actionStep (acc : List ActionComponent × List String × List Int)
    (action : DataCheckAction) : List ActionComponent × List String × List Int :=
  match action with
  | DataCheckAction.regularizeAndImpute ti fp =>
    (acc.1 ++ [ActionComponent.TimeSeriesRegularizer ti fp,
      ActionComponent.TimeSeriesImputer], acc.2.1, acc.2.2)
  | DataCheckAction.dropCol columns => (acc.1, acc.2.1 ++ columns, acc.2.2)
  | DataCheckAction.imputeCol is_target strat strats =>
    (acc.1 ++ [if is_target then ActionComponent.TargetImputer strat
      else ActionComponent.PerColumnImputer strats], acc.2.1, acc.2.2)
  | DataCheckAction.dropRows rows => (acc.1, acc.2.1, acc.2.2 ++ rows)

/-- `_make_component_list_from_actions` (utils.py lines 1117-1164): loop over
the actions accumulating `cols_to_drop` / `indices_to_drop`, then materialize
at most one `DropColumns` and one `DropRowsTransformer`, each over the
sorted, deduplicated accumulator, and only when the accumulator is non-empty
(the Python truthiness tests `if cols_to_drop:` / `if indices_to_drop:`). -/
def _make_component_list_from_actions (actions : List DataCheckAction) :
    List ActionComponent :=
  match actions.foldl _actionStep ([], [], []) with
  | (components, cols_to_drop, indices_to_drop) =>
    let components2 :=
      if cols_to_drop.isEmpty then components
      else components ++ [ActionComponent.DropColumns (sortedDedup strLe cols_to_drop)]
    if indices_to_drop.isEmpty then components2
    else components2 ++ [ActionComponent.DropRowsTransformer (sortedDedup intLe indices_to_drop)]

/-- All columns mentioned by DROP_COL actions, in encounter order. -/
def dropColsOf (actions : List DataCheckAction) : List String :=
  actions.flatMap fun a =>
    match a with
    | DataCheckAction.dropCol columns => columns
    | _ => []

/-- All row indices mentioned by DROP_ROWS actions, in encounter order. -/
def dropRowsOf (actions : List DataCheckAction) : List Int :=
  actions.flatMap fun a =>
    match a with
    | DataCheckAction.dropRows rows => rows
    | _ => []

/-- The per-action components of the non-drop actions, in encounter order. -/
def nonDropComponents (actions : List DataCheckAction) : List ActionComponent :=
  actions.flatMap fun a =>
    match a with
    | DataCheckAction.regularizeAndImpute ti fp =>
      [ActionComponent.TimeSeriesRegularizer ti fp, ActionComponent.TimeSeriesImputer]
    | DataCheckAction.imputeCol is_target strat strats =>
      [if is_target then ActionComponent.TargetImputer strat
        else ActionComponent.PerColumnImputer strats]
    | _ => []

/-! ### Multiseries stack/unstack (`unstack_multiseries`, `stack_X`, `stack_data`)

Column names are modelled by their "_"-split token lists (`TokName`): a name
stands for the string `joinName` of its tokens, the tokens are the exact
pieces of Python `name.split("_")` (so no token contains an underscore), and
`splitTok` computes that split for a string.  The wide-format name
`f"{column_name}_{s_id}"` is therefore the base tokens followed by the split
of the series id: `f ++ splitTok s`, whose `split("_")[-1]` /
`"_".join(split[:-1])` recoveries are exactly `getLast` / `dropLast` on the
token list, including for series ids that themselves contain an underscore.
A DataFrame column is a name plus its value list; rows are aligned
positionally, which models pandas RangeIndex alignment after `reset_index`.
The long-format dataset is generated series-major from (sids, times, fv, tv):
all series share one time grid, the premise of the claim. -/

abbrev TokName := List String

/-- Python "_".join of the tokens. -/
def joinName : TokName → String
  | [] => ""
  | [t] => t
  | t :: ts => t ++ "_" ++ joinName ts

/-- The Python substring test `original_col in col` used by `stack_X` to
select the wide columns of one base column. -/
def isSubNameOf (b w : TokName) : Bool :=
  decide ((joinName b).data <:+: (joinName w).data)

/-- Python split on the underscore character, over the character list of a
string (`col_name.split("_")` at utils.py:1484, `col.split("_")` at 1515). -/
def splitTokAux : List Char → List Char → List String
  | cur, [] => [String.mk cur.reverse]
  | cur, c :: rest =>
    if c = '_' then String.mk cur.reverse :: splitTokAux [] rest
    else splitTokAux (c :: cur) rest

/-- Python `s.split("_")` as a token list. -/
def splitTok (s : String) : TokName := splitTokAux [] s.data

/-- The long-format rows (series id, time, feature values, target). -/
def longRows (sids : List String) (times : List Int) (featCols : List TokName)
    (fv : String → TokName → Int → Int) (tv : String → Int → Int) :
    List (String × Int × List Int × Int) :=
  sids.flatMap (fun s => times.map (fun t =>
    (s, t, featCols.map (fun f => fv s f t), tv s t)))

/-- The wide feature columns produced by `unstack_multiseries`
(lines 1410-1433): for each series id (in first-appearance order) and each
non-target column (in column order), the column `{column_name}_{s_id}` whose
values are that series' values aligned on the shared time grid.  The token
list of the new name is the base tokens followed by the underscore-split of
the series id, which is the split of the Python f-string. -/
def unstack_X_cols (sids : List String) (times : List Int)
    (featCols : List TokName) (fv : String → TokName → Int → Int) :
    List (TokName × List Int) :=
  sids.flatMap (fun s =>
    featCols.map (fun f => (f ++ splitTok s, times.map (fv s f))))

/-- The wide target columns `{target_name}_{s_id}` of `unstack_multiseries`. -/
def unstack_y_cols (sids : List String) (times : List Int)
    (target_name : TokName) (tv : String → Int → Int) :
    List (TokName × List Int) :=
  sids.map (fun s => (target_name ++ splitTok s, times.map (tv s)))

/-- The values of `data.stack(0)` over a `T`-row frame with the given
columns: row-major traversal, columns in column order. -/
def stack_data_vals (T : Nat) (cols : List (TokName × List Int)) : List Int :=
  (List.range T).flatMap (fun i => cols.map (fun c => c.2.getD i 0))

/-- The series-id column `stack_data` derives from the stacked column labels:
`col_name.split("_")[-1]` per stacked entry. -/
def stack_data_sids (T : Nat) (cols : List (TokName × List Int)) : List String :=
  (List.range T).flatMap (fun _ => cols.map (fun c => c.1.getLastD ""))

/-- The restacked frame produced by `stack_X` (lines 1492-1558): the series-id
column (contributed by the first base column's `stack_data` call), one value
column per inferred base column (named by rejoining all but the last token of
the first subset column), and the repeated time column. -/
structure StackedX where
  sid_col : List String
  value_cols : List (TokName × List Int)
  time_col : List Int

/-- `stack_X` (lines 1492-1558) on a frame whose first column is the time
index: infer the base-column and series-id sets from the non-time column
names (first-encounter order stands in for Python set iteration order, which
is unspecified; the claims are permutation-level and do not depend on it),
stack each base column's subset (selected by the substring test), and repeat
the time column once per series id. -/
def stack_X_model (time_index : TokName) (timeVals : List Int)
    (wideCols : List (TokName × List Int)) : StackedX :=
  let allCols := (time_index, timeVals) :: wideCols
  let original_columns := allCols.foldl (fun acc c =>
    if c.1 = time_index then acc
    else if c.1.dropLast ∈ acc then acc else acc ++ [c.1.dropLast]) []
  let series_ids := allCols.foldl (fun acc c =>
    if c.1 = time_index then acc
    else if c.1.getLastD "" ∈ acc then acc else acc ++ [c.1.getLastD ""]) []
  { sid_col := stack_data_sids timeVals.length
      (allCols.filter (fun c => isSubNameOf (original_columns.headD []) c.1))
    value_cols := original_columns.map (fun b =>
      let subset := allCols.filter (fun c => isSubNameOf b c.1)
      (((subset.headD ([], [])).1).dropLast, stack_data_vals timeVals.length subset))
    time_col := timeVals.flatMap (fun t => List.replicate series_ids.length t) }

/-- Column selection by name (`restacked[name]`); names are unique in the
frames at hand. -/
def lookupCol (cols : List (TokName × List Int)) (b : TokName) : List Int :=
  ((cols.find? (fun c => c.1 = b)).getD (b, [])).2

/-- The row contents of a positionally aligned frame with the given value
columns: row k is the list of the k-th entries of all columns. -/
def rowsOfCols (total : Nat) (cols : List (List Int)) : List (List Int) :=
  match cols with
  | [] => List.replicate total []
  | c :: rest => c.zipWith List.cons (rowsOfCols total rest)

/-- The long rows recovered by the round trip: unstack, then `stack_X` on the
wide features and `stack_data` on the wide targets, then read the rows of the
positionally aligned result (series id, time, feature values, target). -/
def roundtripRows (sids : List String) (times : List Int)
    (featCols : List TokName) (fv : String → TokName → Int → Int)
    (tv : String → Int → Int) (target_name time_index : TokName) :
    List (String × Int × List Int × Int) :=
  let sx := stack_X_model time_index times (unstack_X_cols sids times featCols fv)
  let ys := stack_data_vals times.length (unstack_y_cols sids times target_name tv)
  sx.sid_col.zip (sx.time_col.zip
    ((rowsOfCols (times.length * sids.length)
        (featCols.map (fun f => lookupCol sx.value_cols f))).zip ys))

/-- First-encounter-order set insertion (Python `set.add` over a loop, with a
deterministic iteration order). -/
def addNewList {α : Type} [DecidableEq α] (acc : List α) (l : List α) : List α :=
  l.foldl (fun acc x => if x ∈ acc then acc else acc ++ [x]) acc

/-! ### Model-understanding metrics (`evalml/model_understanding/metrics.py`) -/

/-- `normalize_confusion_matrix` (metrics.py lines 40-75) over a confusion
matrix of non-negative integer counts (the output of sklearn confusion
matrices).  numpy emits an "invalid value encountered" warning exactly when a
0/0 division happens; for a count matrix that is exactly when the normalizing
axis is non-empty and sums to zero (all its entries are then zero), and the
source re-raises that first warning as a ValueError.  An unsupported method
name raises a ValueError directly. -/
def normalize_confusion_matrix (conf_mat : List (List Nat))
    (normalize_method : String) : Except String (List (List ℚ)) :=
  if normalize_method = "true" then
    if ∃ row ∈ conf_mat, row ≠ [] ∧ row.sum = 0 then
      Except.error "Sum of given axis is 0 and normalization is not possible. Please select another option."
    else
      Except.ok (conf_mat.map (fun row =>
        row.map (fun x : Nat => (x : ℚ) / (row.sum : ℚ))))
  else if normalize_method = "pred" then
    if ∃ j ∈ List.range (conf_mat.headD []).length,
        conf_mat ≠ [] ∧ (conf_mat.map (fun row => row.getD j 0)).sum = 0 then
      Except.error "Sum of given axis is 0 and normalization is not possible. Please select another option."
    else
      Except.ok (conf_mat.map (fun row =>
        (List.range (conf_mat.headD []).length).map (fun j =>
          (row.getD j 0 : ℚ) / ((conf_mat.map (fun r => r.getD j 0)).sum : ℚ))))
  else if normalize_method = "all" then
    if (∃ row ∈ conf_mat, row ≠ []) ∧ (conf_mat.map List.sum).sum = 0 then
      Except.error "Sum of given axis is 0 and normalization is not possible. Please select another option."
    else
      Except.ok (conf_mat.map (fun row =>
        row.map (fun x : Nat => (x : ℚ) / ((conf_mat.map List.sum).sum : ℚ))))
  else
    Except.error ("Invalid value provided for normalize_method: " ++ normalize_method)

/-- The external statistical test routines used by `check_distribution`
(scipy `chisquare`, `wilcoxon`, `kstest`), abstracted as the p-values they
return.  `chisquare_pvalue obs expected` receives the two count vectors. -/
structure StatTests where
  chisquare_pvalue : List Nat → List Nat → ℚ
  wilcoxon_pvalue : List ℚ → List ℚ → ℚ
  kstest_pvalue : List ℚ → List ℚ → ℚ

/-- pandas `value_counts`: one entry per distinct value with its count,
sorted by descending count (stable on ties; `check_distribution` only reads
the length and the count column, and feeds identical inputs to identical
outputs, so the tie order is immaterial to the claims). -/
def value_counts (y : List ℚ) : List (ℚ × Nat) :=
  List.insertionSort (fun a b => b.2 ≤ a.2)
    (y.dedup.map (fun v => (v, y.count v)))

/-- `check_distribution` (metrics.py lines 367-395): chi-square for
classification (with an early 0 when the class cardinalities differ),
Wilcoxon for the remaining time-series types, Kolmogorov-Smirnov for plain
regression; returns 1 iff the p-value is at least the threshold.  The final 0
is unreachable: every problem type satisfies one of the three predicates. -/
def check_distribution (tests : StatTests) (y_true y_pred : List ℚ)
    (problem_type : ProblemTypes) (threshold : ℚ) : Nat :=
  if is_classification problem_type then
    let true_value_counts := value_counts y_true
    let pred_value_counts := value_counts y_pred
    if true_value_counts.length ≠ pred_value_counts.length then 0
    else
      if tests.chisquare_pvalue (pred_value_counts.map Prod.snd)
          (true_value_counts.map Prod.snd) < threshold then 0 else 1
  else if is_time_series problem_type then
    if tests.wilcoxon_pvalue y_true y_pred < threshold then 0 else 1
  else if is_regression problem_type then
    if tests.kstest_pvalue y_true y_pred < threshold then 0 else 1
  else 0

/-- Statistical tests that always report p-value 1, for concrete
instantiations (chi-square does return 1 on identical observed and expected
counts, where the statistic is 0). -/
def constTests : StatTests :=
  { chisquare_pvalue := fun _ _ => 1, wilcoxon_pvalue := fun _ _ => 1,
    kstest_pvalue := fun _ _ => 1 }

/-! ### Graph Assembler: merging multiple pipeline graphs -/

/-- A per-component parameter value (a Python dict of settings); the
assemblers only copy these around, never inspect them. -/
abbrev PVal := List (String × Int)

/-- An insertion-ordered Python dictionary with string keys. -/
abbrev PyDict (α : Type) := List (String × α)

/-- Python `d[k] = v`: overwrite in place when the key exists, else append. -/
def dictInsert {α : Type} (d : PyDict α) (k : String) (v : α) : PyDict α :=
  if d.any (fun p => p.1 = k) then
    d.map (fun p => if p.1 = k then (k, v) else p)
  else d ++ [(k, v)]

def dictKeys {α : Type} (d : PyDict α) : List String := d.map Prod.fst

/-- A graph node value: the component (modelled by its name; Python stores
the class there) and the input reference strings. -/
abbrev NodeVal := String × List String

/-- A fitted input pipeline as the merge assemblers observe it: its name, its
component dictionary (node name ↦ component and input references, in
insertion order), its compute order, which node names hold target-modifying
components (`handle_component_class(...).modifies_target`), its per-node
parameters (`pipeline.parameters.get(name, {})`), and the model family string
of its final component (used by the stacked-ensemble assembler). -/
structure PipelineModel where
  name : String
  component_dict : PyDict NodeVal
  compute_order : List String
  modifies_target : String → Bool
  parameters : String → PVal
  model_family : String

/-- The renaming scheme shared by both assemblers
(utils.py lines 959-963 and 807-809):
`"{name} Pipeline{idx} - {component_name}"`, where `idx` is rendered as
`" <idx>"` when present and `pipeline_name` overrides `name` when given. -/
def _make_new_component_name (name : String) (component_name : String)
    (idx : Option Nat := none) (pipeline_name : Option String := none) : String :=
  let idxs := match idx with
    | some i => " " ++ toString i
    | none => ""
  match pipeline_name with
  | some pn => pn ++ " Pipeline" ++ idxs ++ " - " ++ component_name
  | none => name ++ " Pipeline" ++ idxs ++ " - " ++ component_name

/-- The duplicate-name index: Python
`used_names.count(name) + 1 if used_names.count(name) > 0 else None`. -/
def nameIdxOf (used_names : List String) (n : String) : Option Nat :=
  if used_names.count n > 0 then some (used_names.count n + 1) else none

/-- Python `item.endswith(".y")`. -/
def endsWithDotY (item : String) : Bool := decide (".y".data <:+ item.data)

/-- Rewrite one input-reference string of a node being merged
(the `elif` chain of `_make_pipeline_from_multiple_graphs`, lines 1026-1051):
a reference to a sibling node is renamed; a `"y"` graph input is redirected to
the shared label encoder for classification problems; the `"X"` input of the
first X-consuming node is redirected to the last pre-component, if any. -/
def rewriteItem (problem_type : ProblemTypes) (cpn : String) (idx : Option Nat)
    (subn : Option String) (first_x : String) (last_prior : Option String)
    (node_name : String) (item : String) : String :=
  if item ≠ "X" ∧ item ≠ "y" then
    _make_new_component_name cpn item idx subn
  else if item = "y" then
    if is_classification problem_type then "Label Encoder.y" else "y"
  else
    match last_prior with
    | some lpc => if node_name = first_x then lpc ++ ".x" else item
    | none => item

/-- The running `final_y` after scanning a node's input list: every
non-graph-input reference ending in `".y"` updates it to its renamed form
(lines 1035-1041). -/
def finalYUpdate (cpn : String) (idx : Option Nat) (subn : Option String)
    (inputs : List String) (final_y : String) : String :=
  inputs.foldl (fun acc item =>
    if item ≠ "X" ∧ item ≠ "y" ∧ endsWithDotY item then
      _make_new_component_name cpn item idx subn
    else acc) final_y

/-- The inner node loop of `_make_pipeline_from_multiple_graphs`
(lines 1008-1053): insert each renamed node with rewritten inputs, record its
parameters, track the last inserted name and the running `final_y`.
The accumulator is (component_graph, parameters, final_component, final_y). -/
def processNodes (problem_type : ProblemTypes) (cpn : String) (idx : Option Nat)
    (subn : Option String) (first_x : String) (last_prior : Option String)
    (ppar : String → PVal) (entries : PyDict NodeVal)
    (acc : PyDict NodeVal × PyDict PVal × Option String × String) :
    PyDict NodeVal × PyDict PVal × Option String × String :=
  match entries with
  | [] => acc
  | e :: rest =>
    let ncn := _make_new_component_name cpn e.1 idx subn
    processNodes problem_type cpn idx subn first_x last_prior ppar rest
      (dictInsert acc.1 ncn
        (e.2.1, e.2.2.map (rewriteItem problem_type cpn idx subn first_x last_prior e.1)),
       dictInsert acc.2.1 ncn (ppar e.1),
       some ncn,
       finalYUpdate cpn idx subn e.2.2 acc.2.2.2)

/-- The evolving state of the outer pipeline loop. -/
structure MergeState where
  component_graph : PyDict NodeVal
  parameters : PyDict PVal
  used_names : List String
  final_components : List String
  final_y : String
  final_y_candidate : Option String

/-- One iteration of the outer pipeline loop of
`_make_pipeline_from_multiple_graphs` (lines 981-1054). -/
def processPipeline (problem_type : ProblemTypes)
    (sub_pipeline_names : Option (String → String)) (last_prior : Option String)
    (st : MergeState) (pipeline : PipelineModel) : MergeState :=
  let cpn := pipeline.name
  let idx := nameIdxOf st.used_names cpn
  let subn := sub_pipeline_names.map (fun m => m cpn)
  let last_node := pipeline.compute_order.getLastD ""
  let fyc :=
    if pipeline.modifies_target last_node then
      some (_make_new_component_name cpn last_node idx subn ++ ".y")
    else none
  let first_x :=
    if pipeline.compute_order.headD "" ≠ "Label Encoder" then
      pipeline.compute_order.headD ""
    else (pipeline.compute_order.drop 1).headD ""
  let r := processNodes problem_type cpn idx subn first_x last_prior
    pipeline.parameters pipeline.component_dict
    (st.component_graph, st.parameters, none, "y")
  { component_graph := r.1
    parameters := r.2.1
    used_names := st.used_names ++ [cpn]
    final_components := st.final_components ++ [(r.2.2.1).getD ""]
    final_y := r.2.2.2
    final_y_candidate := fyc }

/-- The value a pure merged pipeline carries: the assembled component graph
and the parameter dictionary (as its final contents). -/
structure MergedPipeline where
  component_graph : PyDict NodeVal
  parameters : PyDict PVal

/-- The initial merge state (lines 965-979 of
`_make_pipeline_from_multiple_graphs`): the pre-components, plus a shared
Label Encoder node for classification problems. -/
def mergeInit (pre_pipeline_components : PyDict NodeVal)
    (problem_type : ProblemTypes) (parameters : PyDict PVal) : MergeState :=
  { component_graph :=
      if is_classification problem_type then
        dictInsert pre_pipeline_components "Label Encoder"
          ("Label Encoder", ["X", "y"])
      else pre_pipeline_components
    parameters := parameters
    used_names := []
    final_components := []
    final_y := "y"
    final_y_candidate := none }

/-- The closing steps of `_make_pipeline_from_multiple_graphs`
(lines 1056-1090): resolve the final y source, wire the optional post
components over every branch, and append the final estimator node (modelled
by its name). -/
def mergeFinish (estimator : String)
    (post_pipelines_components : PyDict NodeVal) (st : MergeState) :
    MergedPipeline :=
  -- final_y = final_y_candidate if final_y_candidate else final_y (line 1056)
  if post_pipelines_components.isEmpty then
    { component_graph := dictInsert st.component_graph estimator
        (estimator, st.final_components.map (fun c => c ++ ".x")
          ++ [st.final_y_candidate.getD st.final_y])
      parameters := st.parameters }
  else
    let first_pre_est := (post_pipelines_components.headD ("", ("", []))).1
    let post2 := dictInsert post_pipelines_components first_pre_est
      (first_pre_est, st.final_components.map (fun c => c ++ ".x")
        ++ [st.final_y_candidate.getD st.final_y])
    let g := post2.foldl (fun g e => dictInsert g e.1 e.2) st.component_graph
    let lpc := (post2.map Prod.fst).getLastD ""
    { component_graph := dictInsert g estimator
        (estimator, [lpc ++ ".x", lpc ++ ".y"])
      parameters := st.parameters }

/-- `_make_pipeline_from_multiple_graphs` (utils.py lines 931-1090): start
from the pre-components plus, for classification, a shared Label Encoder;
merge each input pipeline with renamed, rewritten nodes; wire the optional
post components over every branch; append the final estimator.  The
`copy.deepcopy` of `parameters` is a value copy here; its aliasing behaviour
is modelled separately on the heap. -/
def _make_pipeline_from_multiple_graphs (input_pipelines : List PipelineModel)
    (estimator : String) (problem_type : ProblemTypes)
    (parameters : PyDict PVal := [])
    (sub_pipeline_names : Option (String → String) := none)
    (pre_pipeline_components : PyDict NodeVal := [])
    (post_pipelines_components : PyDict NodeVal := []) : MergedPipeline :=
  mergeFinish estimator post_pipelines_components
    (input_pipelines.foldl
      (processPipeline problem_type sub_pipeline_names
        ((pre_pipeline_components.map Prod.fst).getLast?))
      (mergeInit pre_pipeline_components problem_type parameters))

/-- The node names of a merged pipeline built with no parameters, no
sub-pipeline aliases and no pre or post components. -/
def mergedKeys (input_pipelines : List PipelineModel) (estimator : String)
    (problem_type : ProblemTypes) : List String :=
  dictKeys (_make_pipeline_from_multiple_graphs input_pipelines estimator
    problem_type [] none [] []).component_graph

/-! ### Heap model for the caller-retained parameter dictionaries (C8) -/

/-- A heap of Python dictionary objects, addressed by reference. -/
structure Heap where
  store : List (Nat × PyDict PVal)
  next : Nat

def Heap.get (h : Heap) (r : Nat) : PyDict PVal := (h.store.lookup r).getD []

def Heap.set (h : Heap) (r : Nat) (d : PyDict PVal) : Heap :=
  { store := h.store.map (fun p => if p.1 = r then (r, d) else p), next := h.next }

def Heap.alloc (h : Heap) (d : PyDict PVal) : Nat × Heap :=
  (h.next, { store := h.store ++ [(h.next, d)], next := h.next + 1 })

/-- The caller-visible effect of `_make_pipeline_from_multiple_graphs` on its
`parameters` argument under Python reference semantics: the function rebinds
its local name right away — `parameters = copy.deepcopy(parameters) if
parameters else {}` (lines 965-967) — so every later write lands in a freshly
allocated dictionary whose final contents are those computed by the pure
model; the dictionary the caller retains is never written through. -/
def mpfmg_heap (h : Heap) (paramsRef : Option Nat)
    (input_pipelines : List PipelineModel) (estimator : String)
    (problem_type : ProblemTypes)
    (sub_pipeline_names : Option (String → String) := none)
    (pre_pipeline_components : PyDict NodeVal := [])
    (post_pipelines_components : PyDict NodeVal := []) :
    Heap × Nat × MergedPipeline :=
  let init : PyDict PVal :=
    match paramsRef with
    | some r => if (h.get r).isEmpty then [] else h.get r
    | none => []
  let ar := h.alloc init
  let result := _make_pipeline_from_multiple_graphs input_pipelines estimator
    problem_type init sub_pipeline_names pre_pipeline_components
    post_pipelines_components
  ((ar.2.set ar.1 result.parameters), ar.1, result)

/-- The per-node parameter writes of `_make_stacked_ensemble_pipeline`
(lines 862-912): every node of every input pipeline is renamed by model
family (with the duplicate index) and its parameters are stored under the new
name. -/
def mseWrites (pipelines : List PipelineModel) (used : List String) :
    List (String × PVal) :=
  match pipelines with
  | [] => []
  | p :: rest =>
    let idx := nameIdxOf used p.model_family
    p.component_dict.map
      (fun e => (_make_new_component_name p.model_family e.1 idx none, p.parameters e.1))
      ++ mseWrites rest (used ++ [p.model_family])

/-- The caller-visible effect of `_make_stacked_ensemble_pipeline` on
`label_encoder_params` under Python reference semantics:
`parameters = label_encoder_params or {}` (line 834) ALIASES a non-empty
caller dictionary; the classification branch then mutates it in place via
`parameters.update({"Stacked Ensemble Classifier": ...})` (lines 836-843) and
the per-node writes `parameters[new_component_name] = ...` (line 892).  The
regression branch rebinds `parameters` to a fresh literal dictionary
(lines 847-851) before writing.  Returns the heap and the reference the local
`parameters` finally denotes. -/
def _make_stacked_ensemble_pipeline_heap (h : Heap)
    (label_encoder_params : Option Nat) (input_pipelines : List PipelineModel)
    (problem_type : ProblemTypes) (n_jobs : Int) : Heap × Nat :=
  let a : Nat × Heap :=
    match label_encoder_params with
    | some r0 => if (h.get r0).isEmpty then h.alloc [] else (r0, h)
    | none => h.alloc []
  let r := a.1
  let h := a.2
  if is_classification problem_type then
    let h := h.set r
      (dictInsert (h.get r) "Stacked Ensemble Classifier" [("n_jobs", n_jobs)])
    let h := h.set r
      ((mseWrites input_pipelines []).foldl (fun d e => dictInsert d e.1 e.2) (h.get r))
    (h, r)
  else
    let a2 := h.alloc [("Stacked Ensemble Regressor", [("n_jobs", n_jobs)])]
    let r2 := a2.1
    let h2 := a2.2
    let h3 := h2.set r2
      ((mseWrites input_pipelines []).foldl (fun d e => dictInsert d e.1 e.2) (h2.get r2))
    (h3, r2)

/-- A heap holding one caller-retained label-encoder parameter dictionary at
reference 0. -/
def leHeap : Heap :=
  { store := [(0, [("Label Encoder", [("positive_label", 1)])])], next := 1 }

/-- A small concrete two-node pipeline for instantiating the merge claims. -/
def demoPipeline : PipelineModel :=
  { name := "Random Forest Classifier w/ Imputer"
    component_dict :=
      [("Imputer", ("Imputer", ["X", "y"])),
       ("Random Forest Classifier", ("Random Forest Classifier", ["Imputer.x", "y"]))]
    compute_order := ["Imputer", "Random Forest Classifier"]
    modifies_target := fun _ => false
    parameters := fun _ => []
    model_family := "Random Forest" }

section SelectorLemmas

variable (env : STLEnv) (X : FeatureSchema) (pt : ProblemTypes)
variable (est : EstimatorClass) (s : Option SamplerName)

lemma runRule_sublist_ruleBlock (r : RuleFn) :
    (runRule env r X pt est s).Sublist (ruleBlock r) := by
  cases r <;>
    simp only [runRule, ruleBlock, _get_label_encoder, _get_drop_all_null,
      _get_drop_index_unknown, _get_url, _get_email, _get_datetime,
      _get_natural_language, _get_imputer, _get_ordinal_encoder, _get_ohe,
      _get_sampler, _get_standard_scaler, _get_time_series_featurizer,
      _get_decomposer, _get_drop_nan_rows_transformer] <;>
    (repeat' split) <;> simp

lemma filter_flatMap_runRule_sublist (rules : List RuleFn) (p : RuleFn → Bool) :
    ((rules.filter p).flatMap (fun f => runRule env f X pt est s)).Sublist
      (rules.flatMap ruleBlock) := by
  induction rules with
  | nil => simp
  | cons r rest ih =>
    by_cases hp : p r
    · simpa [List.filter_cons, hp] using
        List.Sublist.append (runRule_sublist_ruleBlock env X pt est s r) ih
    · simp only [List.filter_cons, hp, Bool.false_eq_true, if_false, List.flatMap_cons]
      exact ih.trans (List.sublist_append_right _ _)

lemma components_functions_blocks_sublist (inc : Bool) (fns : List RuleFn)
    (h : components_functions pt inc = some fns) :
    (fns.flatMap ruleBlock).Sublist (selectorMasterOrder pt) := by
  cases pt <;> cases inc <;>
    simp only [components_functions, is_multiseries, is_time_series,
      if_true, if_false, Bool.true_eq_false, reduceIte, Option.some.injEq] at h <;>
    (try subst h) <;> (try cases h) <;> decide

/-- No rule other than the sampler rule ever emits a sampler component. -/
lemma sampler_only_from_sampler_rule (r : RuleFn) (c : ComponentType)
    (hc : c = ComponentType.Oversampler ∨ c = ComponentType.Undersampler)
    (hr : r ≠ RuleFn.sampler) : c ∉ runRule env r X pt est s := by
  intro hm
  have hsub := runRule_sublist_ruleBlock env X pt est s r
  have hb : c ∈ ruleBlock r := hsub.mem hm
  cases r <;> simp only [ruleBlock, List.mem_singleton, List.mem_cons,
    List.not_mem_nil, or_false] at hb <;>
    first
      | (exact hr rfl)
      | (rcases hc with rfl | rfl <;> simp_all)

/-- No rule other than the decomposer rule ever emits `STLDecomposer`. -/
lemma stl_only_from_decomposer_rule (r : RuleFn)
    (hr : r ≠ RuleFn.decomposer) :
    ComponentType.STLDecomposer ∉ runRule env r X pt est s := by
  intro hm
  have hb : ComponentType.STLDecomposer ∈ ruleBlock r :=
    (runRule_sublist_ruleBlock env X pt est s r).mem hm
  cases r <;> simp_all [ruleBlock]

lemma decomposer_not_excluded (excl : List String) :
    RuleFn.decomposer ∉ functions_to_exclude excl := by
  simp only [functions_to_exclude]
  split_ifs <;> simp

lemma sampler_not_excluded (excl : List String) :
    RuleFn.sampler ∉ functions_to_exclude excl := by
  simp only [functions_to_exclude]
  split_ifs <;> simp

lemma sampler_mem_components_functions (inc : Bool)
    (h : is_multiseries pt = false) :
    ∃ fns, components_functions pt inc = some fns ∧ RuleFn.sampler ∈ fns := by
  cases pt <;> simp only [is_multiseries] at h <;> cases inc <;>
    first
      | exact ⟨_, rfl, by decide⟩
      | cases h

lemma classification_not_multiseries (h : is_classification pt = true) :
    is_multiseries pt = false := by
  cases pt <;> simp_all [is_classification, is_multiseries]

end SelectorLemmas

/-- C10: for the multiseries-time-series-regression problem type the selector
recommends exactly `[STLDecomposer]` when `include_decomposer` is true and
nothing at all when it is false, for every schema, estimator, sampler choice
and exclusion set. -/
theorem multiseries_selector_minimal (env : STLEnv) (X : FeatureSchema)
    (est : EstimatorClass) (s : Option SamplerName) (excl : List String) :
    _get_preprocessing_components env X
        ProblemTypes.MULTISERIES_TIME_SERIES_REGRESSION est s excl true
      = [ComponentType.STLDecomposer]
    ∧ _get_preprocessing_components env X
        ProblemTypes.MULTISERIES_TIME_SERIES_REGRESSION est s excl false
      = [] := by
  refine ⟨?_, rfl⟩
  have hne := decomposer_not_excluded excl
  simp [_get_preprocessing_components, components_functions, List.filter_cons, hne,
    runRule, _get_decomposer, is_multiseries, is_time_series, is_regression]

/-- C9: the Preprocessing Selector is deterministic (two runs on identical
input are syntactically the same pure computation) and its output always
respects the fixed rule order: it is a subsequence of the per-problem-type
master order. -/
theorem selector_deterministic_fixed_order (env : STLEnv) (X : FeatureSchema)
    (pt : ProblemTypes) (est : EstimatorClass) (s : Option SamplerName)
    (excl : List String) (inc : Bool) :
    _get_preprocessing_components env X pt est s excl inc =
      _get_preprocessing_components env X pt est s excl inc
    ∧ (_get_preprocessing_components env X pt est s excl inc).Sublist
        (selectorMasterOrder pt) := by
  refine ⟨rfl, ?_⟩
  unfold _get_preprocessing_components
  cases hcf : components_functions pt inc with
  | none => simp
  | some fns =>
    exact (filter_flatMap_runRule_sublist env X pt est s fns _).trans
      (components_functions_blocks_sublist pt inc fns hcf)

/-- C5 counterexample: the Preprocessing Selector itself (which the claim
quantifies over) adds an Oversampler for a plain regression problem whenever a
sampler name is supplied, although regression is not a classification problem:
`_get_sampler` contains no classification test. -/
theorem sampler_without_classification_cx :
    ComponentType.Oversampler ∈
      _get_preprocessing_components trivSTLEnv emptySchema ProblemTypes.REGRESSION
        rfRegressor (some SamplerName.Oversampler) [] true
    ∧ is_classification ProblemTypes.REGRESSION = false := by
  exact ⟨by decide, rfl⟩

/-- C5 amended: the Selector adds a sampler iff a sampler name is provided and
the problem is not multiseries; the claimed iff with classification holds once
the `make_pipeline` validation (which rejects a sampler for any
non-classification problem when an estimator is supplied) has passed. -/
theorem sampler_iff_amended (env : STLEnv) (X : FeatureSchema) (pt : ProblemTypes)
    (est : EstimatorClass) (s : Option SamplerName) (excl : List String) (inc : Bool)
    (ge : ProblemTypes → List EstimatorClass) :
    ((ComponentType.Oversampler ∈ _get_preprocessing_components env X pt est s excl inc
        ∨ ComponentType.Undersampler ∈ _get_preprocessing_components env X pt est s excl inc)
      ↔ (s.isSome = true ∧ is_multiseries pt = false))
    ∧ (make_pipeline_validate ge (some est) pt s = Except.ok () →
        ((ComponentType.Oversampler ∈ _get_preprocessing_components env X pt est s excl inc
            ∨ ComponentType.Undersampler ∈ _get_preprocessing_components env X pt est s excl inc)
          ↔ (s.isSome = true ∧ is_classification pt = true))) := by
  have main :
      (ComponentType.Oversampler ∈ _get_preprocessing_components env X pt est s excl inc
        ∨ ComponentType.Undersampler ∈ _get_preprocessing_components env X pt est s excl inc)
      ↔ (s.isSome = true ∧ is_multiseries pt = false) := by
    constructor
    · intro hmem
      have hex : ∃ c, (c = ComponentType.Oversampler ∨ c = ComponentType.Undersampler)
          ∧ c ∈ _get_preprocessing_components env X pt est s excl inc := by
        rcases hmem with h | h
        · exact ⟨_, Or.inl rfl, h⟩
        · exact ⟨_, Or.inr rfl, h⟩
      rcases hex with ⟨c, hc, hcm⟩
      unfold _get_preprocessing_components at hcm
      cases hcf : components_functions pt inc with
      | none => rw [hcf] at hcm; cases hcm
      | some fns =>
        rw [hcf] at hcm
        rcases List.mem_flatMap.mp hcm with ⟨r, hrf, hcr⟩
        have hrs : r = RuleFn.sampler := by
          by_contra hne
          exact sampler_only_from_sampler_rule env X pt est s r c hc hne hcr

        subst hrs
        have hsome : s.isSome = true := by
          cases s with
          | none => simp [runRule, _get_sampler] at hcr
          | some x => rfl
        refine ⟨hsome, ?_⟩
        by_contra hms
        have hms' : is_multiseries pt = true := by
          cases hb : is_multiseries pt
          · exact absurd hb hms
          · rfl
        have hrl : RuleFn.sampler ∈ fns := (List.mem_filter.mp hrf).1
        cases pt <;> simp only [is_multiseries] at hms' <;> try cases hms'
        cases inc <;>
          simp only [components_functions, is_multiseries, reduceIte,
            Option.some.injEq] at hcf <;>
          first
            | (subst hcf; simp at hrl)
            | cases hcf
    · rintro ⟨hsome, hms⟩
      rcases sampler_mem_components_functions pt inc hms with ⟨fns, hcf, hrl⟩
      cases s with
      | none => cases hsome
      | some x =>
        have hmem : ∀ c, c ∈ _get_sampler X pt est (some x) →
            c ∈ _get_preprocessing_components env X pt est (some x) excl inc := by
          intro c hc
          unfold _get_preprocessing_components
          rw [hcf]
          refine List.mem_flatMap.mpr ⟨RuleFn.sampler, ?_, hc⟩
          exact List.mem_filter.mpr ⟨hrl, by simpa using sampler_not_excluded excl⟩
        cases x with
        | Oversampler => exact Or.inl (hmem _ (by simp [_get_sampler]))
        | Undersampler => exact Or.inr (hmem _ (by simp [_get_sampler]))
  refine ⟨main, ?_⟩
  intro hvalid
  have hval : s.isSome = true → is_classification pt = true := by
    intro hsome
    by_contra hcls
    have hcls' : is_classification pt = false := by
      cases hb : is_classification pt
      · rfl
      · exact absurd hb hcls
    simp only [make_pipeline_validate, hcls', hsome, Bool.not_false,
      Bool.and_self, if_true] at hvalid
    split at hvalid
    · cases hvalid
    · cases hvalid
  rw [main]
  constructor
  · rintro ⟨hsome, _⟩
    exact ⟨hsome, hval hsome⟩
  · rintro ⟨hsome, hcls⟩
    exact ⟨hsome, classification_not_multiseries pt hcls⟩

/-- C5 amended, witness: a concrete binary-classification call with an
Oversampler passes validation and the sampler appears in the selection. -/
theorem sampler_iff_amended_witness :
    (ComponentType.Oversampler ∈
        _get_preprocessing_components trivSTLEnv emptySchema ProblemTypes.BINARY
          rfClassifier (some SamplerName.Oversampler) [] true
      ∨ ComponentType.Undersampler ∈
        _get_preprocessing_components trivSTLEnv emptySchema ProblemTypes.BINARY
          rfClassifier (some SamplerName.Oversampler) [] true)
    ↔ ((some SamplerName.Oversampler).isSome = true
        ∧ is_classification ProblemTypes.BINARY = true) :=
  (sampler_iff_amended trivSTLEnv emptySchema ProblemTypes.BINARY rfClassifier
    (some SamplerName.Oversampler) [] true (fun _ => [rfClassifier])).2 (by rfl)

/-- C4 counterexample: for the multiseries problem type the decomposer is
recommended unconditionally, even in an environment with no inferrable
frequency at all, contradicting the claimed necessary condition
"is not multiseries ... with an inferrable, valid frequency". -/
theorem decomposer_multiseries_cx :
    ComponentType.STLDecomposer ∈
      _get_preprocessing_components trivSTLEnv emptySchema
        ProblemTypes.MULTISERIES_TIME_SERIES_REGRESSION rfRegressor none [] true
    ∧ is_multiseries ProblemTypes.MULTISERIES_TIME_SERIES_REGRESSION = true
    ∧ trivSTLEnv.inferred_freq = none := by
  exact ⟨by decide, rfl, rfl⟩

/-- C4 amended: `STLDecomposer` appears in the selection only if the problem
is a time-series regression problem, and, whenever the problem is NOT
multiseries, only if additionally the time index has an inferrable frequency
that `is_freq_valid` accepts and `determine_periodicity` finds a seasonal
period of at most `DECOMPOSER_PERIOD_CAP`; for the multiseries problem type it
is added without any frequency check. -/
theorem decomposer_only_if_amended (env : STLEnv) (X : FeatureSchema)
    (pt : ProblemTypes) (est : EstimatorClass) (s : Option SamplerName)
    (excl : List String) (inc : Bool)
    (h : ComponentType.STLDecomposer ∈
      _get_preprocessing_components env X pt est s excl inc) :
    is_regression pt = true ∧ is_time_series pt = true ∧
    (is_multiseries pt = false →
      ∃ freq, env.inferred_freq = some freq ∧ env.is_freq_valid freq = true ∧
        ∃ p, env.determine_periodicity (if freq.contains 'Q' then 3 else 5) = some p
          ∧ p ≤ DECOMPOSER_PERIOD_CAP) := by
  unfold _get_preprocessing_components at h
  have hd : ComponentType.STLDecomposer ∈ _get_decomposer env X pt est s := by
    cases hcf : components_functions pt inc with
    | none => rw [hcf] at h; cases h
    | some fns =>
      rw [hcf] at h
      rcases List.mem_flatMap.mp h with ⟨r, _, hcr⟩
      have hrd : r = RuleFn.decomposer := by
        by_contra hne
        exact stl_only_from_decomposer_rule env X pt est s r hne hcr
      subst hrd
      exact hcr
  unfold _get_decomposer at hd
  split at hd
  case isFalse => cases hd
  case isTrue hts =>
    have hts1 : is_time_series pt = true := by
      cases hb : is_time_series pt
      · rw [hb] at hts; cases hts
      · rfl
    have hts2 : is_regression pt = true := by
      cases hb : is_regression pt
      · rw [hb, Bool.and_false] at hts; cases hts
      · rfl
    refine ⟨hts2, hts1, ?_⟩
    intro hms
    rw [hms] at hd
    simp only [Bool.false_eq_true, if_false] at hd
    cases hfreq : env.inferred_freq with
    | none => rw [hfreq] at hd; cases hd
    | some freq =>
      rw [hfreq] at hd
      by_cases hvf : env.is_freq_valid freq = true
      · simp only [hvf, if_true] at hd
        refine ⟨freq, rfl, hvf, ?_⟩
        cases hper : env.determine_periodicity (if freq.contains 'Q' then 3 else 5) with
        | none => rw [hper] at hd; cases hd
        | some p =>
          rw [hper] at hd
          by_cases hcap : p ≤ DECOMPOSER_PERIOD_CAP
          · exact ⟨p, rfl, hcap⟩
          · simp [hcap] at hd
      · have hvf' : env.is_freq_valid freq = false := by
          cases hb : env.is_freq_valid freq
          · rfl
          · exact absurd hb hvf
        simp only [hvf', Bool.false_eq_true, if_false] at hd
        cases hd

/-- C4 amended, witness: the conclusion instantiated at the multiseries
counterexample input, where the hypothesis holds by computation. -/
theorem decomposer_only_if_amended_witness :
    is_regression ProblemTypes.MULTISERIES_TIME_SERIES_REGRESSION = true
    ∧ is_time_series ProblemTypes.MULTISERIES_TIME_SERIES_REGRESSION = true
    ∧ (is_multiseries ProblemTypes.MULTISERIES_TIME_SERIES_REGRESSION = false →
      ∃ freq, trivSTLEnv.inferred_freq = some freq
        ∧ trivSTLEnv.is_freq_valid freq = true
        ∧ ∃ p, trivSTLEnv.determine_periodicity
              (if freq.contains 'Q' then 3 else 5) = some p
            ∧ p ≤ DECOMPOSER_PERIOD_CAP) :=
  decomposer_only_if_amended trivSTLEnv emptySchema
    ProblemTypes.MULTISERIES_TIME_SERIES_REGRESSION rfRegressor none [] true (by decide)

lemma foldl_actionStep (actions : List DataCheckAction)
    (cs : List ActionComponent) (cols : List String) (idxs : List Int) :
    actions.foldl _actionStep (cs, cols, idxs) =
      (cs ++ nonDropComponents actions, cols ++ dropColsOf actions,
        idxs ++ dropRowsOf actions) := by
  induction actions generalizing cs cols idxs with
  | nil => simp [nonDropComponents, dropColsOf, dropRowsOf]
  | cons a rest ih =>
    cases a <;>
      simp [_actionStep, nonDropComponents, dropColsOf, dropRowsOf, ih,
        List.append_assoc]

/-- C3 counterexample: a DROP_COL action whose column list is empty produces
no `DropColumns` component at all (the Python truthiness test
`if cols_to_drop:` skips materialization), so the translator does not always
coalesce DROP_COL actions "into exactly one DropColumns component". -/
theorem action_translator_empty_dropcol_cx :
    _make_component_list_from_actions [DataCheckAction.dropCol []] = [] := by rfl

/-- C3 amended: the translator output is exactly the per-action impute and
regularize components in encounter order, followed by at most one
`DropColumns` over the sorted deduplicated union of all mentioned columns
(present iff at least one column is mentioned) and at most one
`DropRowsTransformer` over the sorted deduplicated union of all mentioned
rows (present iff at least one row is mentioned); on the concrete example the
output is one DropColumns(["a","b"]) and one DropRowsTransformer([3]). -/
theorem action_translator_coalesces (actions : List DataCheckAction) :
    (_make_component_list_from_actions actions =
      nonDropComponents actions
        ++ (if dropColsOf actions = [] then []
            else [ActionComponent.DropColumns (sortedDedup strLe (dropColsOf actions))])
        ++ (if dropRowsOf actions = [] then []
            else [ActionComponent.DropRowsTransformer (sortedDedup intLe (dropRowsOf actions))]))
    ∧ _make_component_list_from_actions
        [DataCheckAction.dropCol ["a"], DataCheckAction.dropCol ["b", "a"],
          DataCheckAction.dropRows [3]] =
      [ActionComponent.DropColumns ["a", "b"], ActionComponent.DropRowsTransformer [3]] := by
  constructor
  · unfold _make_component_list_from_actions
    rw [foldl_actionStep]
    simp only [List.nil_append]
    by_cases hc : dropColsOf actions = [] <;>
      by_cases hr : dropRowsOf actions = [] <;>
        simp [hc, hr, List.isEmpty_iff, List.append_assoc]
  · decide

lemma sum_map_div_self (row : List Nat) (S : ℚ) :
    (row.map (fun x : Nat => (x : ℚ) / S)).sum = ((row.sum : ℕ) : ℚ) / S := by
  induction row with
  | nil => simp
  | cons a t ih =>
    simp only [List.map_cons, List.sum_cons, ih, Nat.cast_add, add_div]

/-- C6: normalizing a count confusion matrix by rows yields rows summing to 1
when no row sums to zero; a zero-sum row is rejected with a ValueError
(modelled as `Except.error`), as is any normalize_method outside
true/pred/all.  The squareness hypothesis states the input is an actual
confusion matrix (i.e. rows have as many entries as there are rows). -/
theorem normalize_cm_claims (m : List (List Nat)) (method : String)
    (hsq : ∀ row ∈ m, row.length = m.length) :
    ((∀ row ∈ m, row.sum ≠ 0) →
      ∃ res, normalize_confusion_matrix m "true" = Except.ok res
        ∧ ∀ row ∈ res, row.sum = 1)
    ∧ ((∃ row ∈ m, row.sum = 0) →
      ∃ e, normalize_confusion_matrix m "true" = Except.error e)
    ∧ (method ≠ "true" → method ≠ "pred" → method ≠ "all" →
      ∃ e, normalize_confusion_matrix m method = Except.error e) := by
  refine ⟨?_, ?_, ?_⟩
  · intro hnz
    unfold normalize_confusion_matrix
    rw [if_pos rfl, if_neg]
    · refine ⟨_, rfl, ?_⟩
      intro row hrow
      rcases List.mem_map.mp hrow with ⟨orig, horig, rfl⟩
      rw [sum_map_div_self]
      exact div_self (by exact_mod_cast hnz orig horig)
    · rintro ⟨row, hrow, -, hzero⟩
      exact hnz row hrow hzero
  · rintro ⟨row, hrow, hzero⟩
    unfold normalize_confusion_matrix
    rw [if_pos rfl, if_pos]
    · exact ⟨_, rfl⟩
    · refine ⟨row, hrow, ?_, hzero⟩
      have hlen : row.length = m.length := hsq row hrow
      have hmpos : 0 < m.length := List.length_pos.mpr (List.ne_nil_of_mem hrow)
      intro hnil
      rw [hnil] at hlen
      simp only [List.length_nil] at hlen
      omega
  · intro h1 h2 h3
    unfold normalize_confusion_matrix
    rw [if_neg h1, if_neg h2, if_neg h3]
    exact ⟨_, rfl⟩

/-- C6 witness: the identity 2x2 confusion matrix normalizes by rows to rows
summing to 1. -/
theorem normalize_cm_claims_witness :
    ∃ res, normalize_confusion_matrix [[1, 0], [0, 1]] "true" = Except.ok res
      ∧ ∀ row ∈ res, row.sum = 1 :=
  (normalize_cm_claims [[1, 0], [0, 1]] "bogus" (by decide)).1 (by decide)

lemma ite_pvalue_eq_one (p threshold : ℚ) :
    (if p < threshold then (0 : Nat) else 1) = 1 ↔ threshold ≤ p := by
  by_cases hp : p < threshold
  · simp [hp, not_le.mpr hp]
  · simp [hp, not_lt.mp hp]

/-- C7: `check_distribution` uses chi-square for classification (returning 0
early when the numbers of distinct true and predicted classes differ),
Wilcoxon for the non-classification time-series types, KS for plain
regression, and returns 1 iff the p-value is at least the threshold; in
particular it returns 1 for a classification target with identical true and
predicted values, since chi-square reports p-value 1 on identical observed
and expected counts. -/
theorem check_distribution_claims (tests : StatTests) (y_true y_pred : List ℚ)
    (pt : ProblemTypes) (threshold : ℚ) :
    (is_classification pt = true →
      (value_counts y_true).length ≠ (value_counts y_pred).length →
      check_distribution tests y_true y_pred pt threshold = 0)
    ∧ (is_classification pt = true →
      (value_counts y_true).length = (value_counts y_pred).length →
      (check_distribution tests y_true y_pred pt threshold = 1 ↔
        threshold ≤ tests.chisquare_pvalue ((value_counts y_pred).map Prod.snd)
          ((value_counts y_true).map Prod.snd)))
    ∧ (is_classification pt = false → is_time_series pt = true →
      (check_distribution tests y_true y_pred pt threshold = 1 ↔
        threshold ≤ tests.wilcoxon_pvalue y_true y_pred))
    ∧ (is_classification pt = false → is_time_series pt = false →
      is_regression pt = true →
      (check_distribution tests y_true y_pred pt threshold = 1 ↔
        threshold ≤ tests.kstest_pvalue y_true y_pred))
    ∧ (is_classification pt = true → y_true = y_pred → threshold ≤ 1 →
      (∀ counts, tests.chisquare_pvalue counts counts = 1) →
      check_distribution tests y_true y_pred pt threshold = 1) := by
  refine ⟨?_, ?_, ?_, ?_, ?_⟩
  · intro hcls hne
    unfold check_distribution
    rw [if_pos hcls, if_pos hne]
  · intro hcls heq
    unfold check_distribution
    rw [if_pos hcls, if_neg (by simpa using heq)]
    exact ite_pvalue_eq_one _ _
  · intro hcls hts
    unfold check_distribution
    rw [if_neg (by simp [hcls]), if_pos hts]
    exact ite_pvalue_eq_one _ _
  · intro hcls hts hreg
    unfold check_distribution
    rw [if_neg (by simp [hcls]), if_neg (by simp [hts]), if_pos hreg]
    exact ite_pvalue_eq_one _ _
  · intro hcls heq hth hchi
    subst heq
    unfold check_distribution
    rw [if_pos hcls, if_neg (by simp)]
    rw [hchi]
    rw [if_neg (not_lt.mpr hth)]

/-- C7 witness: the spec example y_true = y_pred = [0,0,1,1,1] under binary
classification with the default threshold 0.1 returns 1 (instantiating the
chi-square collaborator with the p-value it reports for a zero statistic). -/
theorem check_distribution_claims_witness :
    check_distribution constTests [0, 0, 1, 1, 1] [0, 0, 1, 1, 1]
      ProblemTypes.BINARY (1 / 10) = 1 :=
  (check_distribution_claims constTests [0, 0, 1, 1, 1] [0, 0, 1, 1, 1]
    ProblemTypes.BINARY (1 / 10)).2.2.2.2 rfl rfl (by norm_num) (fun _ => rfl)

lemma lookup_append_single_ne {α : Type} (store : List (Nat × α)) (k : Nat)
    (d : α) (r : Nat) (hne : r ≠ k) :
    (store ++ [(k, d)]).lookup r = store.lookup r := by
  induction store with
  | nil => simp [List.lookup, beq_eq_false_iff_ne.mpr hne]
  | cons p rest ih =>
    rcases p with ⟨a, b⟩
    by_cases hp : r = a
    · subst hp
      simp [List.lookup]
    · simp only [List.cons_append, List.lookup, beq_eq_false_iff_ne.mpr hp,
        Bool.false_eq_true, if_false]
      simpa [beq_eq_false_iff_ne.mpr hp] using ih

lemma lookup_map_set_ne {α : Type} (store : List (Nat × α)) (k : Nat) (d : α)
    (r : Nat) (hne : r ≠ k) :
    (store.map (fun p => if p.1 = k then (k, d) else p)).lookup r
      = store.lookup r := by
  induction store with
  | nil => simp
  | cons p rest ih =>
    rcases p with ⟨a, b⟩
    by_cases hak : a = k
    · subst hak
      simp only [List.map_cons, if_pos rfl]
      simp [List.lookup, beq_eq_false_iff_ne.mpr hne, ih]
    · simp only [List.map_cons, if_neg hak]
      by_cases hr : r = a
      · subst hr
        simp [List.lookup]
      · simp [List.lookup, beq_eq_false_iff_ne.mpr hr, ih]

lemma Heap.get_set_ne (h : Heap) (r k : Nat) (d : PyDict PVal) (hne : r ≠ k) :
    (h.set k d).get r = h.get r := by
  unfold Heap.get Heap.set
  simp only
  rw [lookup_map_set_ne h.store k d r hne]

lemma Heap.get_alloc_lt (h : Heap) (d : PyDict PVal) (r : Nat)
    (hr : r < h.next) : ((h.alloc d).2).get r = h.get r := by
  unfold Heap.get Heap.alloc
  simp only
  rw [lookup_append_single_ne h.store h.next d r (Nat.ne_of_lt hr)]

/-- C8 counterexample: the stacked-ensemble assembler ALIASES a non-empty
`label_encoder_params` dictionary (`parameters = label_encoder_params or {}`)
and, for a classification problem, updates it in place, so the
caller-retained dictionary has gained the ensemble entry after the call. -/
theorem ensemble_mutates_label_encoder_params_cx :
    ((_make_stacked_ensemble_pipeline_heap leHeap (some 0) []
        ProblemTypes.BINARY (-1)).1).get 0
      = [("Label Encoder", [("positive_label", 1)]),
         ("Stacked Ensemble Classifier", [("n_jobs", -1)])]
    ∧ ((_make_stacked_ensemble_pipeline_heap leHeap (some 0) []
        ProblemTypes.BINARY (-1)).1).get 0 ≠ leHeap.get 0 := by
  constructor
  · rfl
  · decide

/-- C8 amended: `_make_pipeline_from_multiple_graphs` never changes the
caller-retained parameter dictionary: it deep-copies `parameters` on entry
and writes only into the fresh copy, for every heap, valid reference and
argument combination. -/
theorem mpfmg_preserves_caller_params (h : Heap) (r : Nat) (hr : r < h.next)
    (ips : List PipelineModel) (E : String) (pt : ProblemTypes)
    (subn : Option (String → String)) (pre post : PyDict NodeVal) :
    ((mpfmg_heap h (some r) ips E pt subn pre post).1).get r = h.get r := by
  unfold mpfmg_heap
  simp only [Heap.alloc]
  rw [Heap.get_set_ne _ r h.next _ (Nat.ne_of_lt hr)]
  unfold Heap.get
  simp only
  rw [lookup_append_single_ne h.store h.next _ r (Nat.ne_of_lt hr)]

/-- C8 amended, witness: a concrete caller dictionary is untouched by a
concrete multi-graph assembly call. -/
theorem mpfmg_preserves_caller_params_witness :
    ((mpfmg_heap leHeap (some 0) [] "Random Forest Classifier"
        ProblemTypes.BINARY none [] []).1).get 0 = leHeap.get 0 :=
  mpfmg_preserves_caller_params leHeap 0 (by decide) [] "Random Forest Classifier"
    ProblemTypes.BINARY none [] []

lemma joinName_append_singleton (b : TokName) (hb : b ≠ []) (s : String) :
    joinName (b ++ [s]) = joinName b ++ "_" ++ s := by
  induction b with
  | nil => exact absurd rfl hb
  | cons t ts ih =>
    cases ts with
    | nil => rfl
    | cons t2 ts2 =>
      show t ++ "_" ++ joinName ((t2 :: ts2) ++ [s]) = _
      rw [ih (by simp)]
      show _ = t ++ "_" ++ joinName (t2 :: ts2) ++ "_" ++ s
      rw [String.append_assoc (t ++ "_"), String.append_assoc (t ++ "_")]

lemma isSubNameOf_self_append (b : TokName) (hb : b ≠ []) (s : String) :
    isSubNameOf b (b ++ [s]) = true := by
  unfold isSubNameOf
  rw [decide_eq_true_eq, joinName_append_singleton b hb s]
  exact ⟨[], ("_" ++ s).data, by simp [String.data_append, List.append_assoc]⟩

lemma addNewList_cons {α : Type} [DecidableEq α] (acc : List α) (x : α)
    (l : List α) :
    addNewList acc (x :: l)
      = addNewList (if x ∈ acc then acc else acc ++ [x]) l := rfl

lemma addNewList_of_disjoint {α : Type} [DecidableEq α] (l : List α) :
    ∀ acc, (∀ x ∈ l, x ∉ acc) → l.Nodup → addNewList acc l = acc ++ l := by
  induction l with
  | nil => intro acc _ _; simp [addNewList]
  | cons x rest ih =>
    intro acc h hnd
    rw [addNewList_cons, if_neg (h x (List.mem_cons_self x rest))]
    rw [ih (acc ++ [x]) ?_ (List.nodup_cons.mp hnd).2]
    · simp
    · intro y hy
      simp only [List.mem_append, List.mem_singleton]
      rintro (hacc | rfl)
      · exact h y (List.mem_cons_of_mem x hy) hacc
      · exact (List.nodup_cons.mp hnd).1 hy

lemma addNewList_of_subset {α : Type} [DecidableEq α] (l : List α) :
    ∀ acc, (∀ x ∈ l, x ∈ acc) → addNewList acc l = acc := by
  induction l with
  | nil => intro acc _; rfl
  | cons x rest ih =>
    intro acc h
    rw [addNewList_cons, if_pos (h x (List.mem_cons_self x rest))]
    exact ih acc (fun y hy => h y (List.mem_cons_of_mem x hy))

lemma addNewList_append {α : Type} [DecidableEq α] (acc l₁ l₂ : List α) :
    addNewList acc (l₁ ++ l₂) = addNewList (addNewList acc l₁) l₂ := by
  unfold addNewList
  rw [List.foldl_append]

lemma addNewList_replicate {α : Type} [DecidableEq α] (acc : List α) (m : Nat)
    (x : α) (hm : 0 < m) (hx : x ∉ acc) :
    addNewList acc (List.replicate m x) = acc ++ [x] := by
  cases m with
  | zero => exact absurd hm (by decide)
  | succ m =>
    rw [List.replicate_succ, addNewList_cons, if_neg hx]
    exact addNewList_of_subset _ _ (fun y hy => by
      rw [List.eq_of_mem_replicate hy]
      simp)

lemma addNewList_flatMap_const {α β : Type} [DecidableEq α] (l : List β)
    (hl : l ≠ []) (xs : List α) (hnd : xs.Nodup) :
    addNewList [] (l.flatMap (fun _ => xs)) = xs := by
  cases l with
  | nil => exact absurd rfl hl
  | cons b rest =>
    rw [List.flatMap_cons, addNewList_append]
    rw [addNewList_of_disjoint xs [] (by simp) hnd]
    rw [List.nil_append]
    exact addNewList_of_subset _ _ (fun y hy => by
      rcases List.mem_flatMap.mp hy with ⟨_, _, hmem⟩
      exact hmem)

lemma addNewList_flatMap_replicate {α : Type} [DecidableEq α] (m : Nat)
    (hm : 0 < m) (sidsl : List α) :
    ∀ acc, sidsl.Nodup → (∀ x ∈ sidsl, x ∉ acc) →
      addNewList acc (sidsl.flatMap (fun s => List.replicate m s))
        = acc ++ sidsl := by
  induction sidsl with
  | nil => intro acc _ _; simp [addNewList]
  | cons s rest ih =>
    intro acc hnd hdisj
    rw [List.flatMap_cons, addNewList_append]
    rw [addNewList_replicate acc m s hm (hdisj s (List.mem_cons_self s rest))]
    rw [ih (acc ++ [s]) (List.nodup_cons.mp hnd).2 ?_]
    · simp
    · intro y hy
      simp only [List.mem_append, List.mem_singleton]
      rintro (hacc | rfl)
      · exact hdisj y (List.mem_cons_of_mem s hy) hacc
      · exact (List.nodup_cons.mp hnd).1 hy

lemma guardFold_dropLast (time_index : TokName)
    (cols : List (TokName × List Int)) :
    ∀ acc, (∀ c ∈ cols, c.1 ≠ time_index) →
      cols.foldl (fun acc c =>
          if c.1 = time_index then acc
          else if c.1.dropLast ∈ acc then acc else acc ++ [c.1.dropLast]) acc
        = addNewList acc (cols.map (fun c => c.1.dropLast)) := by
  induction cols with
  | nil => intro acc _; rfl
  | cons c rest ih =>
    intro acc h
    rw [List.foldl_cons, List.map_cons, addNewList_cons]
    rw [if_neg (h c (List.mem_cons_self c rest))]
    refine (ih _ (fun c hc => h c (List.mem_cons_of_mem _ hc))).trans ?_
    congr 1
    try congr

lemma guardFold_getLastD (time_index : TokName)
    (cols : List (TokName × List Int)) :
    ∀ acc, (∀ c ∈ cols, c.1 ≠ time_index) →
      cols.foldl (fun acc c =>
          if c.1 = time_index then acc
          else if c.1.getLastD "" ∈ acc then acc else acc ++ [c.1.getLastD ""]) acc
        = addNewList acc (cols.map (fun c => c.1.getLastD "")) := by
  induction cols with
  | nil => intro acc _; rfl
  | cons c rest ih =>
    intro acc h
    rw [List.foldl_cons, List.map_cons, addNewList_cons]
    rw [if_neg (h c (List.mem_cons_self c rest))]
    refine (ih _ (fun c hc => h c (List.mem_cons_of_mem _ hc))).trans ?_
    congr 1
    try congr

lemma filter_eq_singleton_of_nodup {α : Type} [DecidableEq α] (l : List α)
    (b : α) (hb : b ∈ l) (hnd : l.Nodup) :
    l.filter (fun x => x = b) = [b] := by
  induction l with
  | nil => cases hb
  | cons a rest ih =>
    by_cases hab : a = b
    · subst hab
      rw [List.filter_cons, if_pos (by simp)]
      rw [List.filter_eq_nil_iff.mpr ?_]
      · intro x hx
        simp only [decide_eq_true_eq]
        intro hxa
        exact (List.nodup_cons.mp hnd).1 (hxa ▸ hx)
    · rw [List.filter_cons, if_neg (by simp [hab])]
      rcases List.mem_cons.mp hb with rfl | hbr
      · exact absurd rfl hab
      · exact ih hbr (List.nodup_cons.mp hnd).2

lemma range_flatMap_map_getD {α : Type} (xs : List α) (g : α → Int → Int) :
    ∀ times : List Int,
      (List.range times.length).flatMap
          (fun i => xs.map (fun x => (times.map (g x)).getD i 0))
        = times.flatMap (fun t => xs.map (fun x => g x t)) := by
  intro times
  induction times with
  | nil => simp
  | cons t ts ih =>
    rw [List.length_cons, List.range_succ_eq_map, List.flatMap_cons,
      List.flatMap_map, List.flatMap_cons]
    simp only [List.map_cons, List.getD_cons_zero, List.getD_cons_succ]
    rw [ih]

lemma range_flatMap_const {α β : Type} (l : List β) (xs : List α) :
    (List.range l.length).flatMap (fun _ => xs) = l.flatMap (fun _ => xs) := by
  induction l with
  | nil => simp
  | cons t ts ih =>
    rw [List.length_cons, List.range_succ_eq_map, List.flatMap_cons,
      List.flatMap_map, List.flatMap_cons]
    congr 1

lemma stack_data_vals_grid {α : Type} (times : List Int) (xs : List α)
    (nm : α → TokName) (g : α → Int → Int) :
    stack_data_vals times.length
        (xs.map (fun x => (nm x, times.map (g x))))
      = times.flatMap (fun t => xs.map (fun x => g x t)) := by
  unfold stack_data_vals
  rw [← range_flatMap_map_getD xs g times]
  congr 1
  funext i
  rw [List.map_map]
  rfl

lemma flatMap_zipWith {α β γ δ ε : Type} (op : γ → δ → ε) (sids : List β)
    (F : α → β → γ) (G : α → β → δ) :
    ∀ times : List α,
      List.zipWith op (times.flatMap (fun t => sids.map (fun s => F t s)))
          (times.flatMap (fun t => sids.map (fun s => G t s)))
        = times.flatMap (fun t => sids.map (fun s => op (F t s) (G t s))) := by
  intro times
  induction times with
  | nil => simp
  | cons t ts ih =>
    rw [List.flatMap_cons, List.flatMap_cons, List.flatMap_cons,
      List.zipWith_append _ _ _ _ _ (by simp)]
    rw [List.zipWith_map_left, List.zipWith_map_right, List.zipWith_same, ih]

lemma replicate_mul_nil (sids : List String) :
    ∀ times : List Int,
      List.replicate (times.length * sids.length) ([] : List Int)
        = times.flatMap (fun _ => sids.map (fun _ => ([] : List Int))) := by
  intro times
  induction times with
  | nil => simp
  | cons t ts ih =>
    rw [List.length_cons, Nat.succ_mul, Nat.add_comm, List.replicate_add,
      List.flatMap_cons, ih, List.map_const']

lemma rowsOfCols_grid (times : List Int) (sids : List String)
    (V : TokName → Int → String → Int) :
    ∀ fs : List TokName,
      rowsOfCols (times.length * sids.length)
          (fs.map (fun f => times.flatMap (fun t => sids.map (fun s => V f t s))))
        = times.flatMap (fun t => sids.map (fun s => fs.map (fun f => V f t s))) := by
  intro fs
  induction fs with
  | nil =>
    simp only [List.map_nil, rowsOfCols]
    exact replicate_mul_nil sids times
  | cons f rest ih =>
    simp only [List.map_cons, rowsOfCols]
    rw [ih]
    exact flatMap_zipWith List.cons sids (fun t s => V f t s)
      (fun t s => rest.map (fun f2 => V f2 t s)) times

lemma flatMap_map_perm_comm {α β γ : Type} (l₁ : List α) (l₂ : List β)
    (f : α → β → γ) :
    (l₁.flatMap (fun a => l₂.map (f a))).Perm
      (l₂.flatMap (fun b => l₁.map (fun a => f a b))) := by
  rw [← Multiset.coe_eq_coe]
  rw [← Multiset.coe_bind, ← Multiset.coe_bind]
  simp only [← Multiset.map_coe, ← Multiset.bind_singleton]
  exact Multiset.bind_bind (l₁ : Multiset α) (l₂ : Multiset β)

lemma wide_ne_time (featCols : List TokName) (time_index : TokName)
    (hfne : ∀ f ∈ featCols, f ≠ [])
    (hct : ∀ f ∈ featCols, isSubNameOf f time_index = false) :
    ∀ f ∈ featCols, ∀ s : String, f ++ [s] ≠ time_index := by
  intro f hf s heq
  have hself := isSubNameOf_self_append f (hfne f hf) s
  rw [heq, hct f hf] at hself
  cases hself

lemma wideGrid_ne_time (sids : List String) (times : List Int)
    (featCols : List TokName) (fv : String → TokName → Int → Int)
    (time_index : TokName)
    (hfne : ∀ f ∈ featCols, f ≠ [])
    (hct : ∀ f ∈ featCols, isSubNameOf f time_index = false) :
    ∀ c ∈ sids.flatMap (fun s =>
        featCols.map (fun f => (f ++ [s], times.map (fv s f)))),
      c.1 ≠ time_index := by
  intro c hc
  rcases List.mem_flatMap.mp hc with ⟨s, _, hcm⟩
  rcases List.mem_map.mp hcm with ⟨f, hf, rfl⟩
  exact wide_ne_time featCols time_index hfne hct f hf s

lemma origSet_eq (sids : List String) (times : List Int)
    (featCols : List TokName) (fv : String → TokName → Int → Int)
    (time_index : TokName) (hs0 : sids ≠ []) (hfnd : featCols.Nodup)
    (hne : ∀ c ∈ sids.flatMap (fun s =>
        featCols.map (fun f => (f ++ [s], times.map (fv s f)))),
      c.1 ≠ time_index) :
    ((time_index, times) :: sids.flatMap (fun s =>
        featCols.map (fun f => (f ++ [s], times.map (fv s f))))).foldl
        (fun acc c =>
          if c.1 = time_index then acc
          else if c.1.dropLast ∈ acc then acc else acc ++ [c.1.dropLast])
        ([] : List TokName)
      = featCols := by
  rw [List.foldl_cons, if_pos rfl]
  rw [guardFold_dropLast time_index _ [] hne]
  have hmap : (sids.flatMap (fun s =>
        featCols.map (fun f => (f ++ [s], times.map (fv s f))))).map
        (fun c => c.1.dropLast)
      = sids.flatMap (fun _ => featCols) := by
    rw [List.map_flatMap]
    congr 1
    funext s
    rw [List.map_map]
    simp only [Function.comp_def]
    refine (List.map_congr_left (g := fun f => f) (fun f _ => by simp)).trans ?_
    exact List.map_id' featCols
  rw [hmap]
  exact addNewList_flatMap_const sids hs0 featCols hfnd

lemma sidSet_eq (sids : List String) (times : List Int)
    (featCols : List TokName) (fv : String → TokName → Int → Int)
    (time_index : TokName) (hsnd : sids.Nodup) (hf0 : featCols ≠ [])
    (hne : ∀ c ∈ sids.flatMap (fun s =>
        featCols.map (fun f => (f ++ [s], times.map (fv s f)))),
      c.1 ≠ time_index) :
    ((time_index, times) :: sids.flatMap (fun s =>
        featCols.map (fun f => (f ++ [s], times.map (fv s f))))).foldl
        (fun acc c =>
          if c.1 = time_index then acc
          else if c.1.getLastD "" ∈ acc then acc else acc ++ [c.1.getLastD ""])
        ([] : List String)
      = sids := by
  rw [List.foldl_cons, if_pos rfl]
  rw [guardFold_getLastD time_index _ [] hne]
  have hmap : (sids.flatMap (fun s =>
        featCols.map (fun f => (f ++ [s], times.map (fv s f))))).map
        (fun c => c.1.getLastD "")
      = sids.flatMap (fun s => List.replicate featCols.length s) := by
    rw [List.map_flatMap]
    congr 1
    funext s
    rw [List.map_map]
    simp only [Function.comp_def]
    refine (List.map_congr_left (g := fun _ => s) (fun f _ => by simp)).trans ?_
    exact List.map_const' featCols s
  rw [hmap]
  have h := addNewList_flatMap_replicate featCols.length
    (List.length_pos.mpr hf0) sids [] hsnd (by simp)
  simpa using h

lemma filter_flatMap_subname (featCols : List TokName) (b : TokName)
    (fv : String → TokName → Int → Int) (times : List Int)
    (hb : b ∈ featCols) (hbne : b ≠ []) (hfnd : featCols.Nodup) :
    ∀ sids : List String,
      (∀ s ∈ sids, ∀ f ∈ featCols, isSubNameOf b (f ++ [s]) = true → b = f) →
      (sids.flatMap (fun s =>
          featCols.map (fun f => (f ++ [s], times.map (fv s f))))).filter
          (fun c => isSubNameOf b c.1)
        = sids.map (fun s => (b ++ [s], times.map (fv s b))) := by
  intro sids
  induction sids with
  | nil => intro _; rfl
  | cons s rest ih =>
    intro hclean
    rw [List.flatMap_cons, List.filter_append, List.map_cons]
    have h1 : (featCols.map (fun f => (f ++ [s], times.map (fv s f)))).filter
        (fun c => isSubNameOf b c.1) = [(b ++ [s], times.map (fv s b))] := by
      rw [List.filter_map]
      have hfc : featCols.filter
          ((fun c => isSubNameOf b (c : TokName × List Int).1)
            ∘ (fun f => (f ++ [s], times.map (fv s f))))
          = [b] := by
        rw [List.filter_congr (q := fun f => decide (f = b)) ?_]
        · exact filter_eq_singleton_of_nodup featCols b hb hfnd
        · intro f hf
          show isSubNameOf b (f ++ [s]) = decide (f = b)
          by_cases hfb : f = b
          · subst hfb
            rw [isSubNameOf_self_append f hbne s]
            simp
          · rw [decide_eq_false hfb]
            cases hsb : isSubNameOf b (f ++ [s])
            · rfl
            · exact absurd (hclean s (List.mem_cons_self s rest) f hf hsb).symm hfb
      rw [hfc]
      rfl
    rw [h1, ih (fun s2 hs2 => hclean s2 (List.mem_cons_of_mem s hs2))]
    rfl

lemma filter_allCols_subname (sids : List String) (times : List Int)
    (featCols : List TokName) (fv : String → TokName → Int → Int)
    (time_index : TokName) (b : TokName) (hb : b ∈ featCols) (hbne : b ≠ [])
    (hfnd : featCols.Nodup) (hctb : isSubNameOf b time_index = false)
    (hclean : ∀ s ∈ sids, ∀ f ∈ featCols, isSubNameOf b (f ++ [s]) = true → b = f) :
    ((time_index, times) :: sids.flatMap (fun s =>
        featCols.map (fun f => (f ++ [s], times.map (fv s f))))).filter
        (fun c => isSubNameOf b c.1)
      = sids.map (fun s => (b ++ [s], times.map (fv s b))) := by
  rw [List.filter_cons]
  rw [if_neg (by simp [hctb])]
  exact filter_flatMap_subname featCols b fv times hb hbne hfnd sids hclean

lemma lookupCol_map (g : TokName → List Int) (b : TokName) :
    ∀ l : List TokName, b ∈ l →
      lookupCol (l.map (fun x => (x, g x))) b = g b := by
  intro l hb
  induction l with
  | nil => cases hb
  | cons a rest ih =>
    by_cases hab : a = b
    · subst hab
      unfold lookupCol
      rw [List.map_cons, List.find?_cons_of_pos _ (by simp)]
      rfl
    · unfold lookupCol
      rw [List.map_cons, List.find?_cons_of_neg _ (by simp [hab])]
      exact ih (List.mem_cons.mp hb |>.resolve_left (fun h => hab h.symm))

lemma dictKeys_dictInsert_fresh {α : Type} (d : PyDict α) (k : String) (v : α)
    (h : k ∉ dictKeys d) : dictKeys (dictInsert d k v) = dictKeys d ++ [k] := by
  have hany : d.any (fun p => decide (p.1 = k)) = false := by
    rw [List.any_eq_false]
    intro p hp
    simp only [decide_eq_true_eq]
    intro heq
    exact h (heq ▸ List.mem_map_of_mem Prod.fst hp)
  unfold dictInsert dictKeys
  rw [if_neg (by simp [hany])]
  simp

lemma str_append_left_cancel {A c c' : String} (h : A ++ c = A ++ c') :
    c = c' := by
  apply String.ext
  have hd := congrArg String.data h
  simp only [String.data_append] at hd
  exact List.append_cancel_left hd

lemma mknc_eq_prefix_append (n c : String) (idx : Option Nat)
    (subn : Option String) :
    _make_new_component_name n c idx subn
      = _make_new_component_name n "" idx subn ++ c := by
  cases subn <;> cases idx <;>
    simp [_make_new_component_name, String.append_assoc]

lemma mknc_inj_c {n : String} {idx : Option Nat} {subn : Option String}
    {c c' : String}
    (h : _make_new_component_name n c idx subn
      = _make_new_component_name n c' idx subn) : c = c' := by
  rw [mknc_eq_prefix_append n c idx subn, mknc_eq_prefix_append n c' idx subn] at h
  exact str_append_left_cancel h

lemma pipeline_infix_mknc (n c : String) (idx : Option Nat)
    (subn : Option String) :
    " Pipeline".data <:+: (_make_new_component_name n c idx subn).data := by
  have ee : ("" : String).data = [] := rfl
  cases subn with
  | none =>
    cases idx with
    | none =>
      exact ⟨n.data, (" - " ++ c).data,
        by simp [_make_new_component_name, String.data_append, ee, List.append_assoc]⟩
    | some i =>
      exact ⟨n.data, (" " ++ toString i ++ " - " ++ c).data,
        by simp [_make_new_component_name, String.data_append, List.append_assoc]⟩
  | some pn =>
    cases idx with
    | none =>
      exact ⟨pn.data, (" - " ++ c).data,
        by simp [_make_new_component_name, String.data_append, ee, List.append_assoc]⟩
    | some i =>
      exact ⟨pn.data, (" " ++ toString i ++ " - " ++ c).data,
        by simp [_make_new_component_name, String.data_append, List.append_assoc]⟩

lemma ne_mknc_of_no_pipeline {s : String} (n c : String) (idx : Option Nat)
    (subn : Option String) (hs : ¬ (" Pipeline".data <:+: s.data)) :
    s ≠ _make_new_component_name n c idx subn := by
  intro h
  rw [h] at hs
  exact hs (pipeline_infix_mknc n c idx subn)

lemma label_encoder_no_pipeline :
    ¬ (" Pipeline".data <:+: ("Label Encoder" : String).data) := by decide

lemma mknc_none_ne_some_two (n : String) (subn : Option String) (c c' : String) :
    _make_new_component_name n c none subn
      ≠ _make_new_component_name n c' (some 2) subn := by
  intro h
  have hd := congrArg String.data h
  have e2 : ((" " ++ toString (2 : Nat)) : String).data = [' ', '2'] := rfl
  have ed : ((" - ") : String).data = [' ', '-', ' '] := rfl
  have ee : ("" : String).data = [] := rfl
  cases subn with
  | none =>
    simp only [_make_new_component_name, String.data_append, e2, ed, ee,
      List.append_assoc, List.nil_append] at hd
    have h1 := List.append_cancel_left hd
    have h2 := List.append_cancel_left h1
    simp only [List.cons_append, List.nil_append] at h2
    injection h2 with ha hb
    injection hb with hb2 hc
    exact absurd hb2 (by decide)
  | some pn =>
    simp only [_make_new_component_name, String.data_append, e2, ed, ee,
      List.append_assoc, List.nil_append] at hd
    have h1 := List.append_cancel_left hd
    have h2 := List.append_cancel_left h1
    simp only [List.cons_append, List.nil_append] at h2
    injection h2 with ha hb
    injection hb with hb2 hc
    exact absurd hb2 (by decide)

lemma processNodes_keys (pt : ProblemTypes) (cpn : String) (idx : Option Nat)
    (subn : Option String) (firstx : String) (lpc : Option String)
    (ppar : String → PVal) (entries : PyDict NodeVal) (g : PyDict NodeVal)
    (params : PyDict PVal) (fc : Option String) (fy : String)
    (hfresh : ∀ e ∈ entries,
      _make_new_component_name cpn e.1 idx subn ∉ dictKeys g)
    (hnodup : (entries.map (fun e => _make_new_component_name cpn e.1 idx subn)).Nodup) :
    dictKeys (processNodes pt cpn idx subn firstx lpc ppar entries
        (g, params, fc, fy)).1
      = dictKeys g
        ++ entries.map (fun e => _make_new_component_name cpn e.1 idx subn) := by
  induction entries generalizing g params fc fy with
  | nil => simp [processNodes]
  | cons e rest ih =>
    rw [processNodes]
    simp only [List.map_cons]
    have hg1 : dictKeys (dictInsert g (_make_new_component_name cpn e.1 idx subn)
        (e.2.1, e.2.2.map (rewriteItem pt cpn idx subn firstx lpc e.1)))
        = dictKeys g ++ [_make_new_component_name cpn e.1 idx subn] :=
      dictKeys_dictInsert_fresh _ _ _ (hfresh e (List.mem_cons_self e rest))
    rw [ih _ _ _ _ ?_ (List.Nodup.of_cons hnodup)]
    · rw [hg1]
      simp
    · intro x hx
      rw [hg1]
      simp only [List.mem_append, List.mem_singleton]
      rintro (hxg | hxe)
      · exact hfresh x (List.mem_cons_of_mem e hx) hxg
      · have : _make_new_component_name cpn e.1 idx subn
            ∈ rest.map (fun e => _make_new_component_name cpn e.1 idx subn) := by
          rw [← hxe]
          exact List.mem_map_of_mem _ hx
        exact (List.nodup_cons.mp hnodup).1 this

lemma processPipeline_used (pt : ProblemTypes)
    (subns : Option (String → String)) (lpc : Option String) (st : MergeState)
    (P : PipelineModel) :
    (processPipeline pt subns lpc st P).used_names = st.used_names ++ [P.name] := rfl

lemma renamed_map_nodup (entries : PyDict NodeVal) (cpn : String)
    (idx : Option Nat) (subn : Option String)
    (hP : (entries.map Prod.fst).Nodup) :
    (entries.map (fun e => _make_new_component_name cpn e.1 idx subn)).Nodup := by
  have : entries.map (fun e => _make_new_component_name cpn e.1 idx subn)
      = (entries.map Prod.fst).map (fun nm => _make_new_component_name cpn nm idx subn) := by
    rw [List.map_map]
    rfl
  rw [this]
  exact hP.map (fun a b hab => mknc_inj_c hab)

lemma processPipeline_keys (pt : ProblemTypes)
    (subns : Option (String → String)) (lpc : Option String) (st : MergeState)
    (P : PipelineModel) (hP : (P.component_dict.map Prod.fst).Nodup)
    (hfresh : ∀ e ∈ P.component_dict,
      _make_new_component_name P.name e.1 (nameIdxOf st.used_names P.name)
          (subns.map (fun m => m P.name)) ∉ dictKeys st.component_graph) :
    dictKeys (processPipeline pt subns lpc st P).component_graph
      = dictKeys st.component_graph
        ++ P.component_dict.map (fun e =>
            _make_new_component_name P.name e.1 (nameIdxOf st.used_names P.name)
              (subns.map (fun m => m P.name))) := by
  unfold processPipeline
  simp only
  exact processNodes_keys pt P.name _ _ _ lpc P.parameters P.component_dict
    st.component_graph st.parameters none "y" hfresh
    (renamed_map_nodup P.component_dict P.name _ _ hP)

lemma mergeFinish_keys_no_post (E : String) (st : MergeState)
    (hE : E ∉ dictKeys st.component_graph) :
    dictKeys (mergeFinish E [] st).component_graph
      = dictKeys st.component_graph ++ [E] := by
  unfold mergeFinish
  rw [if_pos (show ([] : PyDict NodeVal).isEmpty = true from rfl)]
  exact dictKeys_dictInsert_fresh _ _ _ hE

/-- C1: merging a pair of structurally identical pipelines with identical
names never produces a name collision: the output graph keys are exactly the
optional shared Label Encoder, the first copy renamed with no index, the
second copy renamed with index 2, and the estimator; they are pairwise
distinct and count 2n + 1 + (1 for classification); and in general the k+1st
occurrence of a repeated sub-pipeline name receives the numeric index k+1
(" 2", " 3", ...). -/
theorem merge_identical_pipelines_no_collision (P : PipelineModel) (E : String)
    (pt : ProblemTypes)
    (hP : (P.component_dict.map Prod.fst).Nodup)
    (hE : ¬ (" Pipeline".data <:+: E.data))
    (hLE : E ≠ "Label Encoder") :
    mergedKeys [P, P] E pt
      = (if is_classification pt then ["Label Encoder"] else [])
        ++ P.component_dict.map
            (fun e => _make_new_component_name P.name e.1 none none)
        ++ P.component_dict.map
            (fun e => _make_new_component_name P.name e.1 (some 2) none)
        ++ [E]
    ∧ (mergedKeys [P, P] E pt).Nodup
    ∧ (mergedKeys [P, P] E pt).length
        = 2 * P.component_dict.length + 1 + (if is_classification pt then 1 else 0)
    ∧ (∀ (n : String) (k : Nat), 0 < k →
        nameIdxOf (List.replicate k n) n = some (k + 1)) := by
  have hg1 : dictKeys (mergeInit [] pt []).component_graph
      = (if is_classification pt then ["Label Encoder"] else []) := by
    cases hcl : is_classification pt <;>
      simp [mergeInit, hcl, dictInsert, dictKeys]
  -- first copy: fresh w.r.t. the optional Label Encoder
  have hfresh0 : ∀ e ∈ P.component_dict,
      _make_new_component_name P.name e.1
          (nameIdxOf (mergeInit [] pt []).used_names P.name)
          ((none : Option (String → String)).map (fun m => m P.name))
        ∉ dictKeys (mergeInit [] pt []).component_graph := by
    intro e he hmem
    rw [hg1] at hmem
    cases hcl : is_classification pt
    · rw [hcl] at hmem
      simp at hmem
    · rw [hcl] at hmem
      simp only [reduceIte, List.mem_singleton] at hmem
      exact ne_mknc_of_no_pipeline P.name e.1 _ _ label_encoder_no_pipeline hmem.symm
  have hk1 : dictKeys (processPipeline pt none none (mergeInit [] pt []) P).component_graph
      = (if is_classification pt then ["Label Encoder"] else [])
        ++ P.component_dict.map
            (fun e => _make_new_component_name P.name e.1 none none) := by
    have h := processPipeline_keys pt none none (mergeInit [] pt []) P hP hfresh0
    rw [hg1] at h
    exact h
  -- duplicate index for the second copy
  have hidx1 : nameIdxOf
      ((processPipeline pt none none (mergeInit [] pt []) P).used_names) P.name
      = some 2 := by
    have hu : (processPipeline pt none none (mergeInit [] pt []) P).used_names
        = [P.name] := rfl
    rw [hu]
    simp [nameIdxOf]
  have hfresh1 : ∀ e ∈ P.component_dict,
      _make_new_component_name P.name e.1
          (nameIdxOf ((processPipeline pt none none (mergeInit [] pt []) P).used_names) P.name)
          ((none : Option (String → String)).map (fun m => m P.name))
        ∉ dictKeys (processPipeline pt none none (mergeInit [] pt []) P).component_graph := by
    intro e he hmem
    rw [hidx1, hk1] at hmem
    rw [List.mem_append] at hmem
    rcases hmem with hmem | hmem
    · cases hcl : is_classification pt
      · rw [hcl] at hmem
        simp at hmem
      · rw [hcl] at hmem
        simp only [reduceIte, List.mem_singleton] at hmem
        exact ne_mknc_of_no_pipeline P.name e.1 _ _ label_encoder_no_pipeline hmem.symm
    · rcases List.mem_map.mp hmem with ⟨e', _, heq⟩
      exact mknc_none_ne_some_two P.name none e'.1 e.1 heq
  have hk2 : dictKeys (processPipeline pt none none
        (processPipeline pt none none (mergeInit [] pt []) P) P).component_graph
      = ((if is_classification pt then ["Label Encoder"] else [])
        ++ P.component_dict.map
            (fun e => _make_new_component_name P.name e.1 none none))
        ++ P.component_dict.map
            (fun e => _make_new_component_name P.name e.1 (some 2) none) := by
    have h := processPipeline_keys pt none none
      (processPipeline pt none none (mergeInit [] pt []) P) P hP hfresh1
    rw [hk1] at h
    simp only [hidx1] at h
    exact h
  have hEfresh : E ∉ dictKeys (processPipeline pt none none
      (processPipeline pt none none (mergeInit [] pt []) P) P).component_graph := by
    rw [hk2]
    simp only [List.mem_append]
    rintro ((hmem | hmem) | hmem)
    · cases hcl : is_classification pt
      · rw [hcl] at hmem
        simp at hmem
      · rw [hcl] at hmem
        simp only [reduceIte, List.mem_singleton] at hmem
        exact hLE hmem
    · rcases List.mem_map.mp hmem with ⟨e, _, heq⟩
      exact ne_mknc_of_no_pipeline P.name e.1 _ _ hE heq.symm
    · rcases List.mem_map.mp hmem with ⟨e, _, heq⟩
      exact ne_mknc_of_no_pipeline P.name e.1 _ _ hE heq.symm
  have hkeys : mergedKeys [P, P] E pt
      = (if is_classification pt then ["Label Encoder"] else [])
        ++ P.component_dict.map
            (fun e => _make_new_component_name P.name e.1 none none)
        ++ P.component_dict.map
            (fun e => _make_new_component_name P.name e.1 (some 2) none)
        ++ [E] := by
    have hfold : _make_pipeline_from_multiple_graphs [P, P] E pt [] none [] []
        = mergeFinish E [] (processPipeline pt none none
            (processPipeline pt none none (mergeInit [] pt []) P) P) := rfl
    unfold mergedKeys
    rw [hfold, mergeFinish_keys_no_post E _ hEfresh, hk2]
  refine ⟨hkeys, ?_, ?_, ?_⟩
  · rw [hkeys]
    have hnB : (P.component_dict.map
        (fun e => _make_new_component_name P.name e.1 none none)).Nodup :=
      renamed_map_nodup P.component_dict P.name none none hP
    have hnC : (P.component_dict.map
        (fun e => _make_new_component_name P.name e.1 (some 2) none)).Nodup :=
      renamed_map_nodup P.component_dict P.name (some 2) none hP
    have hdBC : (P.component_dict.map
        (fun e => _make_new_component_name P.name e.1 none none)).Disjoint
        (P.component_dict.map
          (fun e => _make_new_component_name P.name e.1 (some 2) none)) := by
      intro a haB haC
      rcases List.mem_map.mp haB with ⟨e, _, rfl⟩
      rcases List.mem_map.mp haC with ⟨e', _, heq⟩
      exact mknc_none_ne_some_two P.name none e.1 e'.1 heq.symm
    have hnA : ((if is_classification pt then ["Label Encoder"] else [])
        : List String).Nodup := by
      cases is_classification pt <;> simp
    have hdA : ∀ idx, ((if is_classification pt then ["Label Encoder"] else [])
        : List String).Disjoint
        (P.component_dict.map
          (fun e => _make_new_component_name P.name e.1 idx none)) := by
      intro idx a haA haM
      rcases List.mem_map.mp haM with ⟨e, _, rfl⟩
      cases hcl : is_classification pt
      · rw [hcl] at haA
        simp at haA
      · rw [hcl] at haA
        simp only [reduceIte, List.mem_singleton] at haA
        exact ne_mknc_of_no_pipeline P.name e.1 idx none
          label_encoder_no_pipeline haA.symm
    rw [List.nodup_append]
    refine ⟨?_, List.nodup_singleton E, ?_⟩
    · rw [List.nodup_append]
      refine ⟨?_, hnC, ?_⟩
      · rw [List.nodup_append]
        exact ⟨hnA, hnB, hdA none⟩
      · rw [List.disjoint_append_left]
        exact ⟨hdA (some 2), hdBC⟩
    · intro a ha haE
      rw [List.mem_singleton] at haE
      subst haE
      rw [← hk2] at ha
      exact hEfresh ha
  · rw [hkeys]
    cases hcl : is_classification pt <;>
      simp [hcl, List.length_append, List.length_map] <;> omega
  · intro n k hk
    unfold nameIdxOf
    rw [List.count_replicate_self]
    rw [if_pos hk]

/-- C1 witness: two identical copies of a concrete two-node classification
pipeline merge into a graph whose keys are the shared Label Encoder, the
renamed nodes of each copy (the second with index 2), and the estimator. -/
theorem merge_identical_pipelines_no_collision_witness :
    mergedKeys [demoPipeline, demoPipeline] "Random Forest Classifier"
        ProblemTypes.BINARY
      = (if is_classification ProblemTypes.BINARY then ["Label Encoder"] else [])
        ++ demoPipeline.component_dict.map
            (fun e => _make_new_component_name demoPipeline.name e.1 none none)
        ++ demoPipeline.component_dict.map
            (fun e => _make_new_component_name demoPipeline.name e.1 (some 2) none)
        ++ ["Random Forest Classifier"] :=
  (merge_identical_pipelines_no_collision demoPipeline "Random Forest Classifier"
    ProblemTypes.BINARY (by decide) (by decide) (by decide)).1

lemma flatMap_body_congr {α β : Type} (l : List α) (f g : α → List β)
    (h : ∀ a ∈ l, f a = g a) : l.flatMap f = l.flatMap g := by
  induction l with
  | nil => rfl
  | cons a t ih =>
    rw [List.flatMap_cons, List.flatMap_cons, h a (List.mem_cons_self a t),
      ih (fun b hb => h b (List.mem_cons_of_mem a hb))]

lemma unstack_X_cols_eq_singleton (sids : List String) (times : List Int)
    (featCols : List TokName) (fv : String → TokName → Int → Int)
    (hsu : ∀ s ∈ sids, splitTok s = [s]) :
    unstack_X_cols sids times featCols fv
      = sids.flatMap (fun s =>
          featCols.map (fun f => (f ++ [s], times.map (fv s f)))) := by
  unfold unstack_X_cols
  refine flatMap_body_congr sids _ _ (fun s hs => ?_)
  rw [hsu s hs]

lemma unstack_y_cols_eq_singleton (sids : List String) (times : List Int)
    (target_name : TokName) (tv : String → Int → Int)
    (hsu : ∀ s ∈ sids, splitTok s = [s]) :
    unstack_y_cols sids times target_name tv
      = sids.map (fun s => (target_name ++ [s], times.map (tv s))) := by
  unfold unstack_y_cols
  refine List.map_congr_left (fun s hs => ?_)
  rw [hsu s hs]

lemma stack_data_sids_of_concat (times : List Int) (sids : List String)
    (b : TokName) (w : String → List Int) :
    stack_data_sids times.length (sids.map (fun s => (b ++ [s], w s)))
      = times.flatMap (fun _ => sids.map (fun s => s)) := by
  unfold stack_data_sids
  have hin : (sids.map (fun s => (b ++ [s], w s))).map
      (fun c => c.1.getLastD "") = sids.map (fun s => s) := by
    rw [List.map_map]
    simp only [Function.comp_def]
    exact List.map_congr_left (fun s _ => by simp)
  simp only [hin]
  exact range_flatMap_const times (sids.map (fun s => s))

lemma zip_grids {γ δ : Type} (times : List Int) (sids : List String)
    (F : Int → String → γ) (G : Int → String → δ) :
    (times.flatMap (fun t => sids.map (fun s => F t s))).zip
        (times.flatMap (fun t => sids.map (fun s => G t s)))
      = times.flatMap (fun t => sids.map (fun s => (F t s, G t s))) :=
  flatMap_zipWith Prod.mk sids F G times

lemma stack_X_model_grid (sids : List String) (times : List Int)
    (featCols : List TokName) (fv : String → TokName → Int → Int)
    (time_index : TokName)
    (hs0 : sids ≠ []) (hsnd : sids.Nodup)
    (hf0 : featCols ≠ []) (hfnd : featCols.Nodup)
    (hfne : ∀ f ∈ featCols, f ≠ [])
    (hct : ∀ f ∈ featCols, isSubNameOf f time_index = false)
    (hclean : ∀ b ∈ featCols, ∀ s ∈ sids, ∀ f ∈ featCols,
      isSubNameOf b (f ++ [s]) = true → b = f) :
    stack_X_model time_index times
        (sids.flatMap (fun s =>
        featCols.map (fun f => (f ++ [s], times.map (fv s f)))))
      = { sid_col := times.flatMap (fun _ => sids.map (fun s => s))
          value_cols := featCols.map (fun b =>
            (b, times.flatMap (fun t => sids.map (fun s => fv s b t))))
          time_col := times.flatMap (fun t => sids.map (fun _ => t)) } := by
  have hne := wideGrid_ne_time sids times featCols fv time_index hfne hct
  obtain ⟨s0, sr, rfl⟩ := List.exists_cons_of_ne_nil hs0
  obtain ⟨f0, fr, rfl⟩ := List.exists_cons_of_ne_nil hf0
  have hb0 : f0 ∈ f0 :: fr := List.mem_cons_self f0 fr
  simp only [stack_X_model]
  rw [origSet_eq _ times _ fv time_index (by simp) hfnd hne,
    sidSet_eq _ times _ fv time_index hsnd (by simp) hne, List.headD_cons]
  rw [StackedX.mk.injEq]
  refine ⟨?_, ?_, ?_⟩
  · rw [filter_allCols_subname (s0 :: sr) times (f0 :: fr) fv time_index f0 hb0
      (hfne f0 hb0) hfnd (hct f0 hb0) (hclean f0 hb0)]
    exact stack_data_sids_of_concat times (s0 :: sr) f0
      (fun s => times.map (fv s f0))
  · refine List.map_congr_left ?_
    intro b hb
    rw [filter_allCols_subname (s0 :: sr) times (f0 :: fr) fv time_index b hb
      (hfne b hb) hfnd (hct b hb) (hclean b hb)]
    rw [stack_data_vals_grid times (s0 :: sr) (fun s => b ++ [s])
      (fun s => fv s b)]
    rw [List.map_cons, List.headD_cons]
    simp
  · refine flatMap_body_congr times _ _ (fun t _ => ?_)
    rw [List.map_const']

lemma roundtripRows_grid (sids : List String) (times : List Int)
    (featCols : List TokName) (fv : String → TokName → Int → Int)
    (tv : String → Int → Int) (target_name time_index : TokName)
    (hsu : ∀ s ∈ sids, splitTok s = [s])
    (hs0 : sids ≠ []) (hsnd : sids.Nodup)
    (hf0 : featCols ≠ []) (hfnd : featCols.Nodup)
    (hfne : ∀ f ∈ featCols, f ≠ [])
    (hct : ∀ f ∈ featCols, isSubNameOf f time_index = false)
    (hclean : ∀ b ∈ featCols, ∀ s ∈ sids, ∀ f ∈ featCols,
      isSubNameOf b (f ++ [s]) = true → b = f) :
    roundtripRows sids times featCols fv tv target_name time_index
      = times.flatMap (fun t => sids.map (fun s =>
          (s, t, featCols.map (fun f => fv s f t), tv s t))) := by
  simp only [roundtripRows]
  rw [unstack_X_cols_eq_singleton sids times featCols fv hsu,
    unstack_y_cols_eq_singleton sids times target_name tv hsu]
  rw [stack_X_model_grid sids times featCols fv time_index
    hs0 hsnd hf0 hfnd hfne hct hclean]
  dsimp only
  have hlk : featCols.map (fun f => lookupCol (featCols.map (fun b =>
      (b, times.flatMap (fun t => sids.map (fun s => fv s b t))))) f)
      = featCols.map (fun b =>
          times.flatMap (fun t => sids.map (fun s => fv s b t))) :=
    List.map_congr_left (fun f hf => lookupCol_map
      (fun b => times.flatMap (fun t => sids.map (fun s => fv s b t)))
      f featCols hf)
  rw [hlk]
  rw [rowsOfCols_grid times sids (fun f t s => fv s f t) featCols]
  rw [stack_data_vals_grid times sids (fun s => target_name ++ [s]) tv]
  rw [zip_grids, zip_grids, zip_grids]

/-- C2 counterexample: the original for-every-dataset round-trip claim is
false.  For the ordinary shared-grid dataset with feature columns `price`
and `price_usd` (series ids "1", "2", times 10, 11), the substring subset
test `original_col in col` of `stack_X` (utils.py:1544) selects the four
columns price_1, price_2, price_usd_1, price_usd_2 for the base column
`price`, so its restacked values interleave foreign columns and the
recovered rows are not a permutation of the original long rows. -/
theorem unstack_stack_roundtrip_cx :
    ¬ (roundtripRows ["1", "2"] [10, 11] [["price"], ["price", "usd"]]
        (fun s f t => t * (joinName f).length + s.length)
        (fun s t => t + s.length) ["target"] ["date"]).Perm
      (longRows ["1", "2"] [10, 11] [["price"], ["price", "usd"]]
        (fun s f t => t * (joinName f).length + s.length)
        (fun s t => t + s.length)) := by
  decide

/-- C2 amended: for every long-format multiseries dataset in which all
series share one time-index grid, the series ids are pairwise distinct
single underscore-free tokens, and the feature-column names are distinct,
non-empty, substring-clean (no feature name is a substring of another
feature-times-series wide name, nor of the time index), `stack_X` /
`stack_data` applied to the output of `unstack_multiseries` reproduces the
original rows of X and y up to row ordering, with time alignment by
time-index value exact: the recovered rows are a permutation of the
original long rows, and each recovered row carries its exact original time
value, feature values and target value. -/
theorem unstack_stack_roundtrip (sids : List String) (times : List Int)
    (featCols : List TokName) (fv : String → TokName → Int → Int)
    (tv : String → Int → Int) (target_name time_index : TokName)
    (hsu : ∀ s ∈ sids, splitTok s = [s])
    (hs0 : sids ≠ []) (hsnd : sids.Nodup)
    (hf0 : featCols ≠ []) (hfnd : featCols.Nodup)
    (hfne : ∀ f ∈ featCols, f ≠ [])
    (hct : ∀ f ∈ featCols, isSubNameOf f time_index = false)
    (hclean : ∀ b ∈ featCols, ∀ s ∈ sids, ∀ f ∈ featCols,
      isSubNameOf b (f ++ [s]) = true → b = f) :
    (roundtripRows sids times featCols fv tv target_name time_index).Perm
      (longRows sids times featCols fv tv) := by
  rw [roundtripRows_grid sids times featCols fv tv target_name time_index
    hsu hs0 hsnd hf0 hfnd hfne hct hclean]
  unfold longRows
  exact flatMap_map_perm_comm times sids
    (fun t s => (s, t, featCols.map (fun f => fv s f t), tv s t))

/-- C2 witness: the round trip on a concrete two-series, two-time, two-feature
long dataset with clean names is a permutation of its original rows. -/
theorem unstack_stack_roundtrip_witness :
    (roundtripRows ["1", "2"] [10, 11] [["x"], ["y"]]
        (fun s f t => t + (joinName f).length + s.length)
        (fun s t => t + s.length) ["target"] ["date"]).Perm
      (longRows ["1", "2"] [10, 11] [["x"], ["y"]]
        (fun s f t => t + (joinName f).length + s.length)
        (fun s t => t + s.length)) :=
  unstack_stack_roundtrip ["1", "2"] [10, 11] [["x"], ["y"]]
    (fun s f t => t + (joinName f).length + s.length)
    (fun s t => t + s.length) ["target"] ["date"]
    (by decide) (by decide) (by decide) (by decide) (by decide) (by decide)
    (by decide) (by decide)

end EvalML
